import Mathlib

/-!
Verification of the PPE-detection pipeline in
`06_roi_email_logging_ppe_detection.py`: compliance evaluation,
centroid person tracking, session-scoped deduplicated logging, and
cooldown-gated alerting.  Pixel coordinates are embedded as integers,
confidences as exact rationals, identities and counters as naturals,
and timestamps as integers (seconds).  Distances and overlap ratios
computed by the Python code in floating point are rendered in exact
arithmetic: order comparisons of square roots are expressed on squares
and the single ratio comparison is cross-multiplied; both encodings
are order-faithful, and the ratio encoding is proved equivalent to the
division form below.
-/

/-- Bounding box `(x1, y1, x2, y2)` in frame pixel coordinates. -/
structure Box where
  x1 : ℤ
  y1 : ℤ
  x2 : ℤ
  y2 : ℤ
deriving DecidableEq

/-- One labelled detection produced by the model for a frame. -/
structure Detection where
  cls : String
  confidence : ℚ
  bbox : Box
deriving DecidableEq

/-- `PPE_PROPER` from the configuration block. -/
def PPE_PROPER : List String := ["helmet", "gloves", "vest", "boots", "goggles"]

/-- `PPE_VIOLATIONS` from the configuration block. -/
def PPE_VIOLATIONS : List String := ["no_helmet", "no_goggle", "no_gloves", "no_boots", "none"]

/-- `PERSON_CLASS` from the configuration block. -/
def PERSON_CLASS : String := "Person"

/-- `REQUIRED_PPE` from the configuration block (Mode 2). -/
def REQUIRED_PPE : List String := ["helmet", "vest"]

/-- `PPEDetectionApp._check_proximity(bbox1, bbox2, threshold=0.3)`:
intersection area over the area of `bbox1` (the person box), compared
strictly against the threshold; an empty intersection or non-positive
person area yields `false`.  The source computes
`overlap_ratio = inter_area / bbox1_area if bbox1_area > 0 else 0` and
returns `overlap_ratio > threshold`; we render that test in the
equivalent cross-multiplied integer form `10 * inter_area > 3 *
bbox1_area` (guarded by `bbox1_area > 0`), proved equivalent to the
rational-division form in `check_proximity_eq_spec`. -/
def check_proximity (bbox1 bbox2 : Box) : Bool :=
  let x_inter_min := max bbox1.x1 bbox2.x1
  let y_inter_min := max bbox1.y1 bbox2.y1
  let x_inter_max := min bbox1.x2 bbox2.x2
  let y_inter_max := min bbox1.y2 bbox2.y2
  if x_inter_max < x_inter_min ∨ y_inter_max < y_inter_min then false
  else
    let inter_area := (x_inter_max - x_inter_min) * (y_inter_max - y_inter_min)
    let bbox1_area := (bbox1.x2 - bbox1.x1) * (bbox1.y2 - bbox1.y1)
    decide (bbox1_area > 0 ∧ 10 * inter_area > 3 * bbox1_area)

/-- The `ppe_status` dictionary initialised in `check_violations`
(all five flags false), as an insertion-ordered association list. -/
def ppeStatusInit : List (String × Bool) :=
  [("helmet", false), ("vest", false), ("gloves", false), ("boots", false), ("goggles", false)]

/-- Dictionary assignment `ppe_status[key] = True`. -/
def statusSet (st : List (String × Bool)) (key : String) : List (String × Bool) :=
  st.map (fun p => if p.1 = key then (p.1, true) else p)

/-- Dictionary read `ppe_status.get(key, False)`. -/
def statusGet (st : List (String × Bool)) (key : String) : Bool :=
  (st.find? (fun p => p.1 == key)).elim false (fun p => p.2)

/-- The proper-PPE loop of `check_violations`: for each item of
`PPE_PROPER` (skipping `'Person'`), mark the flag true when some
detection of that class passes the proximity check against the
person box. -/
def ppeStatusFor (detection_data : List Detection) (person_bbox : Box) : List (String × Bool) :=
  PPE_PROPER.foldl
    (fun st ppe_item =>
      if ppe_item = "Person" then st
      else
        detection_data.foldl
          (fun st2 det =>
            if det.cls = ppe_item ∧ check_proximity person_bbox det.bbox then
              statusSet st2 ppe_item
            else st2)
          st)
    ppeStatusInit

/-- The violation-class loop of `check_violations`: the first class of
`PPE_VIOLATIONS` (in list order) having some detection that passes the
proximity check against the person box; the inner loop breaks at the
first such detection, the outer at the first such class. -/
def violationDetected (detection_data : List Detection) (person_bbox : Box) : Option String :=
  PPE_VIOLATIONS.find?
    (fun v => detection_data.any (fun det => det.cls == v && check_proximity person_bbox det.bbox))

/-- One entry of the list returned by `check_violations`. -/
structure PersonResult where
  has_violation : Bool
  violation_message : Option String
  ppe_status : List (String × Bool)
  confidence : ℚ
  bbox : Box
deriving DecidableEq

/-- The body of the per-person loop of `check_violations`: PPE status,
violation-class detection, then the mode-dependent compliance decision
(Mode 1 = any missing PPE, Mode 2 = required PPE only). -/
def evalPerson (violation_mode : Nat) (detection_data : List Detection)
    (person_det : Detection) : PersonResult :=
  let person_bbox := person_det.bbox
  let ppe_status := ppeStatusFor detection_data person_bbox
  let violation_detected := violationDetected detection_data person_bbox
  let requiredViol : Bool :=
    match violation_detected with
    | some v => decide (v ∈ REQUIRED_PPE.map (fun ppe => "no_" ++ ppe))
    | none => false
  let compliance : Bool × Option String :=
    if violation_mode = 1 then
      match violation_detected with
      | some v => (false, some ("Violation detected: " ++ v))
      | none =>
        let missing_ppe := PPE_PROPER.filter (fun ppe => !(statusGet ppe_status ppe))
        if missing_ppe.isEmpty then (true, none)
        else (false, some ("Missing PPE: " ++ String.intercalate ", " missing_ppe))
    else
      if requiredViol then
        (false, some ("Required PPE violation: " ++ violation_detected.getD ""))
      else
        let missing_required := REQUIRED_PPE.filter (fun ppe => !(statusGet ppe_status ppe))
        if missing_required.isEmpty then (true, none)
        else
          (false, some ("Missing required PPE: " ++ String.intercalate ", " missing_required))
  { has_violation := !compliance.1
    violation_message := compliance.2
    ppe_status := ppe_status
    confidence := person_det.confidence
    bbox := person_bbox }

/-- `PPEDetectionApp.check_violations`: evaluate every detection whose
class is `PERSON_CLASS`, in detection order. -/
def check_violations (violation_mode : Nat) (detection_data : List Detection) :
    List PersonResult :=
  let person_detections := detection_data.filter (fun d => d.cls == PERSON_CLASS)
  person_detections.map (evalPerson violation_mode detection_data)

/-- Mathematical intersection area of two boxes (clamped at zero),
written from the spec's wording for the overlap-ratio rule. -/
def specInterArea (b1 b2 : Box) : ℤ :=
  max 0 (min b1.x2 b2.x2 - max b1.x1 b2.x1) * max 0 (min b1.y2 b2.y2 - max b1.y1 b2.y1)

/-- Area of the reference (person) bounding box. -/
def boxArea (b : Box) : ℤ := (b.x2 - b.x1) * (b.y2 - b.y1)

/-- The spec's association rule, stated with genuine rational division:
intersection area over the person-box area strictly exceeds 0.3, the
person-box area being positive. -/
def specAssociated (b1 b2 : Box) : Prop :=
  0 < boxArea b1 ∧ (3 : ℚ)/10 < (specInterArea b1 b2 : ℚ) / (boxArea b1 : ℚ)

instance (b1 b2 : Box) : Decidable (specAssociated b1 b2) := by
  unfold specAssociated
  infer_instance

/-- One value of the `tracked_persons` dictionary of `PersonTracker`. -/
structure Track where
  centroid : ℤ × ℤ
  frames_missing : ℕ
  logged : Bool
deriving DecidableEq

/-- `PersonTracker` state: `next_id`, the insertion-ordered
`tracked_persons` dictionary, and the two constructor parameters. -/
structure PersonTracker where
  next_id : ℕ
  tracked_persons : List (ℕ × Track)
  max_distance : ℕ
  memory_frames : ℕ
deriving DecidableEq

/-- `TRACKING_DISTANCE_THRESHOLD` from the configuration block. -/
def TRACKING_DISTANCE_THRESHOLD : ℕ := 50

/-- `TRACKING_MEMORY_FRAMES` from the configuration block. -/
def TRACKING_MEMORY_FRAMES : ℕ := 30

/-- `PersonTracker.__init__(max_distance, memory_frames)`. -/
def PersonTracker.init (max_distance memory_frames : ℕ) : PersonTracker :=
  { next_id := 1, tracked_persons := [], max_distance := max_distance,
    memory_frames := memory_frames }

/-- `PersonTracker._register(centroid)`: assign `next_id`, insert the
new track with `frames_missing = 0` and `logged = False`, increment
`next_id`, and return the assigned identity. -/
def PersonTracker.register (s : PersonTracker) (centroid : ℤ × ℤ) : ℕ × PersonTracker :=
  let newTrack : Track := { centroid := centroid, frames_missing := 0, logged := false }
  (s.next_id,
   { s with tracked_persons := s.tracked_persons ++ [(s.next_id, newTrack)],
            next_id := s.next_id + 1 })

/-- Squared Euclidean distance.  `PersonTracker._calculate_distance`
takes the square root (`** 0.5`) but its result is only ever compared
with other distances and with `max_distance`; all those comparisons
are rendered on squares, an order-faithful encoding for non-negative
reals. -/
def distSq (c1 c2 : ℤ × ℤ) : ℤ :=
  (c1.1 - c2.1) ^ 2 + (c1.2 - c2.2) ^ 2

/-- The inner matching loop of `PersonTracker.update`: scan the
snapshot of tracked ids and centroids in order, skipping ids already
in `used_tracked_ids`, and keep the candidate that is strictly closer
than both the running minimum (`min_distance`, initially infinity,
encoded `none`) and `max_distance`. -/
def findBest (snapshot : List (ℕ × (ℤ × ℤ))) (used : List ℕ) (c : ℤ × ℤ)
    (max_distance : ℕ) : Option ℕ :=
  (snapshot.foldl
    (fun (acc : Option ℤ × Option ℕ) p =>
      if p.1 ∈ used then acc
      else
        let d := distSq c p.2
        let ltMin : Bool :=
          match acc.1 with
          | none => true
          | some m => decide (d < m)
        if ltMin ∧ d < (max_distance : ℤ) ^ 2 then (some d, some p.1) else acc)
    (none, none)).2

/-- Dictionary update for a matched track:
`tracked_persons[pid]['centroid'] = c` and
`tracked_persons[pid]['frames_missing'] = 0`. -/
def setMatched (ts : List (ℕ × Track)) (pid : ℕ) (c : ℤ × ℤ) : List (ℕ × Track) :=
  ts.map (fun p =>
    if p.1 = pid then (p.1, { p.2 with centroid := c, frames_missing := 0 }) else p)

/-- Accumulator of the per-centroid matching loop of
`PersonTracker.update`. -/
structure MatchAcc where
  matched_ids : List ℕ
  used_tracked_ids : List ℕ
  state : PersonTracker

/-- One iteration of the per-centroid matching loop of
`PersonTracker.update`: match to the best unused snapshot track if one
exists (update its centroid, reset its missing counter, mark it used),
otherwise register a new track. -/
def matchStep (snapshot : List (ℕ × (ℤ × ℤ))) (acc : MatchAcc) (c : ℤ × ℤ) : MatchAcc :=
  match findBest snapshot acc.used_tracked_ids c acc.state.max_distance with
  | some best_match_id =>
      let st := { acc.state with
        tracked_persons := setMatched acc.state.tracked_persons best_match_id c }
      { matched_ids := acc.matched_ids ++ [best_match_id],
        used_tracked_ids := acc.used_tracked_ids ++ [best_match_id],
        state := st }
  | none =>
      let r := acc.state.register c
      { matched_ids := acc.matched_ids ++ [r.1],
        used_tracked_ids := acc.used_tracked_ids,
        state := r.2 }

/-- Dictionary increment `tracked_persons[pid]['frames_missing'] += 1`. -/
def incMissing (ts : List (ℕ × Track)) (pid : ℕ) : List (ℕ × Track) :=
  ts.map (fun p =>
    if p.1 = pid then (p.1, { p.2 with frames_missing := p.2.frames_missing + 1 }) else p)

/-- The body applied to one unmatched snapshot id by the post-matching
pass of `PersonTracker.update`: increment its missing counter
(`tracked_persons[pid]['frames_missing'] += 1`) and delete the track
when the counter exceeds `memory_frames`. -/
def missStep (memory_frames : ℕ) (ts1 : List (ℕ × Track)) (pid : ℕ) : List (ℕ × Track) :=
  let ts2 := incMissing ts1 pid
  match ts2.find? (fun p => p.1 == pid) with
  | some p =>
    if p.2.frames_missing > memory_frames then ts2.filter (fun q => q.1 != pid) else ts2
  | none => ts2

/-- The post-matching pass of `PersonTracker.update` (also the body of
its empty-input branch): for every snapshot id not in `used`,
increment its missing counter and delete the track when the counter
exceeds `memory_frames`. -/
def missPass (memory_frames : ℕ) (used : List ℕ) (ids : List ℕ)
    (ts : List (ℕ × Track)) : List (ℕ × Track) :=
  ids.foldl
    (fun ts1 pid => if pid ∈ used then ts1 else missStep memory_frames ts1 pid)
    ts

/-- Pointwise semantics of `missStep` on a track list with distinct
ids: the entry for `pid` has its counter incremented and is dropped
when the new counter exceeds the window; other entries are
untouched. -/
def semOne (memory_frames : ℕ) (pid : ℕ) (ts : List (ℕ × Track)) : List (ℕ × Track) :=
  ts.filterMap (fun p =>
    if p.1 = pid then
      (if p.2.frames_missing + 1 ≤ memory_frames then
        some (p.1, { p.2 with frames_missing := p.2.frames_missing + 1 })
      else none)
    else some p)

/-- Written from the spec/claim wording: increment the missing counter
of every unmatched pre-existing track, then remove every track whose
counter exceeds the memory window. -/
def mapFilter (memory_frames : ℕ) (used ids : List ℕ) (ts : List (ℕ × Track)) :
    List (ℕ × Track) :=
  (ts.map (fun p =>
    if p.1 ∈ ids ∧ p.1 ∉ used then
      (p.1, { p.2 with frames_missing := p.2.frames_missing + 1 })
    else p)).filter (fun p => decide (p.2.frames_missing ≤ memory_frames))

/-- `PersonTracker.update(detections)`: centroid computation (Python
floor division `//`), the empty-input branch, the no-tracked-persons
branch, greedy matching against the snapshot of tracked persons, then
the missing-counter/removal pass over the snapshot ids.  Input boxes
are `(x, y, w, h)`. -/
def PersonTracker.update (s : PersonTracker) (detections : List (ℤ × ℤ × ℤ × ℤ)) :
    List ℕ × PersonTracker :=
  let current_centroids := detections.map
    (fun b => (b.1 + Int.fdiv b.2.2.1 2, b.2.1 + Int.fdiv b.2.2.2 2))
  if current_centroids.isEmpty then
    let ts := missPass s.memory_frames [] (s.tracked_persons.map (fun p => p.1))
      s.tracked_persons
    ([], { s with tracked_persons := ts })
  else if s.tracked_persons.isEmpty then
    current_centroids.foldl
      (fun (acc : List ℕ × PersonTracker) c =>
        let r := acc.2.register c
        (acc.1 ++ [r.1], r.2))
      ([], s)
  else
    let tracked_ids := s.tracked_persons.map (fun p => p.1)
    let snapshot := s.tracked_persons.map (fun p => (p.1, p.2.centroid))
    let acc := current_centroids.foldl (matchStep snapshot) (⟨[], [], s⟩ : MatchAcc)
    let ts := missPass s.memory_frames acc.used_tracked_ids tracked_ids
      acc.state.tracked_persons
    (acc.matched_ids, { acc.state with tracked_persons := ts })

/-- `PersonTracker.reset()`: clear all tracks and restart identity
numbering from 1 (invoked at session start by `start_detection`). -/
def PersonTracker.reset (s : PersonTracker) : PersonTracker :=
  { s with tracked_persons := [], next_id := 1 }

/-- The `PersonTracker` data invariant: every tracked id is below
`next_id`, and tracked ids are pairwise distinct. -/
def TrackerInv (s : PersonTracker) : Prop :=
  (∀ p ∈ s.tracked_persons, p.1 < s.next_id) ∧
    (s.tracked_persons.map (fun p => p.1)).Nodup

instance (s : PersonTracker) : Decidable (TrackerInv s) := by
  unfold TrackerInv
  infer_instance

/-- The identities freshly registered (as opposed to matched) during a
sequence of `update` calls with no intervening `reset`: per update,
the returned ids that are not ids of pre-existing tracks, i.e. are
`≥ next_id` at the time of the call. -/
def runRegs (s : PersonTracker) : List (List (ℤ × ℤ × ℤ × ℤ)) → List ℕ
  | [] => []
  | f :: fs =>
    let r := s.update f
    r.1.filter (fun i => decide (s.next_id ≤ i)) ++ runRegs r.2 fs

/-- Written from the spec/claim wording for `update`: the candidate
tracks for a centroid are the not-yet-used existing tracks whose
distance is strictly below the configured threshold. -/
def claimCandidates (snapshot : List (ℕ × (ℤ × ℤ))) (used : List ℕ) (c : ℤ × ℤ)
    (max_distance : ℕ) : List (ℕ × (ℤ × ℤ)) :=
  snapshot.filter (fun p => decide (p.1 ∉ used ∧ distSq c p.2 < (max_distance : ℤ) ^ 2))

/-- Written from the spec/claim wording for `update`: the nearest
candidate track (earliest in snapshot order on ties). -/
def claimBest (snapshot : List (ℕ × (ℤ × ℤ))) (used : List ℕ) (c : ℤ × ℤ)
    (max_distance : ℕ) : Option ℕ :=
  ((claimCandidates snapshot used c max_distance).foldl
    (fun (acc : Option (ℕ × (ℤ × ℤ))) p =>
      match acc with
      | none => some p
      | some q => if distSq c p.2 < distSq c q.2 then some p else some q)
    none).map (fun p => p.1)

/-- Written from the spec/claim wording: one step of the greedy match,
using `claimBest` in place of the source's inner loop. -/
def specStep (snapshot : List (ℕ × (ℤ × ℤ))) (acc : MatchAcc) (c : ℤ × ℤ) : MatchAcc :=
  match claimBest snapshot acc.used_tracked_ids c acc.state.max_distance with
  | some bid =>
      let st := { acc.state with
        tracked_persons := setMatched acc.state.tracked_persons bid c }
      { matched_ids := acc.matched_ids ++ [bid],
        used_tracked_ids := acc.used_tracked_ids ++ [bid],
        state := st }
  | none =>
      let r := acc.state.register c
      { matched_ids := acc.matched_ids ++ [r.1],
        used_tracked_ids := acc.used_tracked_ids,
        state := r.2 }

/-- Written from the spec/claim wording for `update`, with no special
branches: process every input centroid in order through the greedy
rule, then increment the missing counter of every unmatched
pre-existing track and remove every track whose counter exceeds the
memory window. -/
def specUpdate (s : PersonTracker) (detections : List (ℤ × ℤ × ℤ × ℤ)) :
    List ℕ × PersonTracker :=
  let current_centroids := detections.map
    (fun b => (b.1 + Int.fdiv b.2.2.1 2, b.2.1 + Int.fdiv b.2.2.2 2))
  let old_ids : List ℕ := s.tracked_persons.map (fun p => p.1)
  let snapshot := s.tracked_persons.map (fun p => (p.1, p.2.centroid))
  let acc := current_centroids.foldl (specStep snapshot) (⟨[], [], s⟩ : MatchAcc)
  let ts := mapFilter s.memory_frames acc.used_tracked_ids old_ids acc.state.tracked_persons
  (acc.matched_ids, { acc.state with tracked_persons := ts })

/-- Coupling relation between the running state of `findBest`'s inner
loop (running minimum distance and best id) and the running state of
`claimBest`'s fold over the filtered candidates. -/
def FBRel (c : ℤ × ℤ) (maxD : ℕ) :
    (Option ℤ × Option ℕ) → Option (ℕ × (ℤ × ℤ)) → Prop
  | (none, none), none => True
  | (some d, some i), some q => i = q.1 ∧ d = distSq c q.2 ∧ d < (maxD : ℤ) ^ 2
  | _, _ => False

/-- Invariant of the per-centroid matching fold of `update`, relative
to the pre-update state `s0`: the tracker invariant is maintained,
`next_id` only grows, every returned id is below the final `next_id`
and comes either from a pre-existing track or is fresh, the fresh ids
are strictly increasing, used ids come from pre-existing tracks, and
tracks that were matched or freshly registered have missing counter
zero. -/
structure MatchInv (s0 : PersonTracker) (acc : MatchAcc) : Prop where
  inv : TrackerInv acc.state
  mono : s0.next_id ≤ acc.state.next_id
  maxd : acc.state.max_distance = s0.max_distance
  memf : acc.state.memory_frames = s0.memory_frames
  ids_lt : ∀ i ∈ acc.matched_ids, i < acc.state.next_id
  ids_src : ∀ i ∈ acc.matched_ids,
    i ∈ s0.tracked_persons.map (fun p => p.1) ∨ s0.next_id ≤ i
  new_sorted :
    (acc.matched_ids.filter (fun i => decide (s0.next_id ≤ i))).Pairwise (· < ·)
  used_old : ∀ i ∈ acc.used_tracked_ids, i ∈ s0.tracked_persons.map (fun p => p.1)
  used_zero : ∀ p ∈ acc.state.tracked_persons,
    p.1 ∈ acc.used_tracked_ids → p.2.frames_missing = 0
  new_zero : ∀ p ∈ acc.state.tracked_persons,
    p.1 ∉ s0.tracked_persons.map (fun q => q.1) → p.2.frames_missing = 0

/-- Session counters and the logged-identity set of `PPEDetectionApp`
(the fields reset by `start_detection`). -/
structure Ledger where
  session_total_people : ℕ
  session_compliant : ℕ
  session_violations : ℕ
  logged_person_ids : Finset ℕ
deriving DecidableEq

/-- A record written or alert triggered by the per-person body of
`update_frame`. -/
inductive RecordEvent
  | violationRec (person_id : ℕ)
  | alertTrig (person_id : ℕ)
  | detectionRec (person_id : ℕ) (is_compliant : Bool)
deriving DecidableEq

/-- The per-person body of `update_frame` (lines 1110–1147): on first
observation of `person_id` in the session, add it to the logged set,
bump the total, then bump violations and write one violation record
and one alert trigger (when `viol`) or bump compliant (otherwise), and
write exactly one detection record; later observations change nothing
and write nothing.  Events are listed in program order. -/
def processPerson (L : Ledger) (person_id : ℕ) (viol : Bool) : Ledger × List RecordEvent :=
  if person_id ∈ L.logged_person_ids then (L, [])
  else
    let L1 := { L with
      logged_person_ids := insert person_id L.logged_person_ids
      session_total_people := L.session_total_people + 1 }
    if viol then
      ({ L1 with session_violations := L1.session_violations + 1 },
       [.violationRec person_id, .alertTrig person_id, .detectionRec person_id false])
    else
      ({ L1 with session_compliant := L1.session_compliant + 1 },
       [.detectionRec person_id true])

/-- One frame of the per-person loop of `update_frame`: each pair is a
tracker identity together with the person's `has_violation` verdict. -/
def processFrame (L : Ledger) (frame : List (ℕ × Bool)) : Ledger × List RecordEvent :=
  frame.foldl
    (fun acc pv =>
      let r := processPerson acc.1 pv.1 pv.2
      (r.1, acc.2 ++ r.2))
    (L, [])

/-- The session-statistics reset performed by `start_detection`. -/
def startLedger : Ledger :=
  { session_total_people := 0, session_compliant := 0, session_violations := 0,
    logged_person_ids := ∅ }

/-- A whole session: the frames processed between a `start_detection`
and the next stop, threaded through the ledger. -/
def runFrames (L : Ledger) : List (List (ℕ × Bool)) → Ledger × List RecordEvent
  | [] => (L, [])
  | f :: fs =>
    let r := processFrame L f
    let rest := runFrames r.1 fs
    (rest.1, r.2 ++ rest.2)

/-- All identities appearing in a session's frames. -/
def traceIds (frames : List (List (ℕ × Bool))) : List ℕ :=
  frames.flatten.map (fun pv => pv.1)

/-- Count of events equal to `e`. -/
def countEv (evs : List RecordEvent) (e : RecordEvent) : ℕ :=
  evs.countP (fun x => decide (x = e))

/-- Number of detection records written for `pid` (either compliance
flag). -/
def countDet (evs : List RecordEvent) (pid : ℕ) : ℕ :=
  evs.countP (fun e =>
    match e with
    | .detectionRec q _ => q == pid
    | _ => false)

/-- Number of violation records written for `pid`. -/
def countViol (evs : List RecordEvent) (pid : ℕ) : ℕ :=
  evs.countP (fun e =>
    match e with
    | .violationRec q => q == pid
    | _ => false)

/-- Number of alert triggers fired for `pid`. -/
def countAlertT (evs : List RecordEvent) (pid : ℕ) : ℕ :=
  evs.countP (fun e =>
    match e with
    | .alertTrig q => q == pid
    | _ => false)

/-- The ledger invariant of the session statistics. -/
def LedgerInv (L : Ledger) : Prop :=
  L.session_total_people = L.session_compliant + L.session_violations ∧
    L.session_total_people = L.logged_person_ids.card

instance (L : Ledger) : Decidable (LedgerInv L) := by
  unfold LedgerInv
  infer_instance

/-- `ALERT_COOLDOWN` (seconds) from the configuration block. -/
def ALERT_COOLDOWN : ℤ := 3

/-- `EMAIL_COOLDOWN` (seconds) from the configuration block. -/
def EMAIL_COOLDOWN : ℤ := 30

/-- The alert-related state of `PPEDetectionApp` read and written by
`trigger_alert` and `send_email_notification`: the two per-channel
last-fired timestamps (`None` initially), the email checkbox, the
notifier's validated-credentials flag, audio availability, and whether
a current frame is stored. -/
structure AlertState where
  last_alert_time : Option ℤ
  last_email_time : Option ℤ
  email_checkbox : Bool
  notifier_enabled : Bool
  audio_enabled : Bool
  have_frame : Bool
deriving DecidableEq

/-- Observable actions of `trigger_alert` / `send_email_notification`,
in program order. -/
inductive AlertEvent
  | setLastAlert (t : ℤ)
  | alertLog
  | audioPlay
  | setLastEmail (t : ℤ)
  | emailSubmit
  | emailLog
deriving DecidableEq

/-- `send_email_notification(violation_message)`: return if the email
checkbox is off; return (no state change, no dispatch) while the email
cooldown has not elapsed; otherwise set `last_email_time := now`
first, then — when a current frame is stored — submit the send job to
the worker pool (`send_email_async` submits only when the notifier's
credentials validated) and append the log line. -/
def send_email_notification (st : AlertState) (now : ℤ) : AlertState × List AlertEvent :=
  if !st.email_checkbox then (st, [])
  else
    let suppressed : Bool :=
      match st.last_email_time with
      | some t => decide (now - t < EMAIL_COOLDOWN)
      | none => false
    if suppressed then (st, [])
    else
      let st1 := { st with last_email_time := some now }
      if st.have_frame then
        (st1,
         [.setLastEmail now] ++ (if st.notifier_enabled then [.emailSubmit] else []) ++
           [.emailLog])
      else (st1, [.setLastEmail now])

/-- `trigger_alert(violation_message)`: return (no state change, no
action) while the alert cooldown has not elapsed; otherwise set
`last_alert_time := now` first, append the alert log line, play the
audio alert when enabled (its errors are caught in the source), then
call `send_email_notification`. -/
def trigger_alert (st : AlertState) (now : ℤ) : AlertState × List AlertEvent :=
  let suppressed : Bool :=
    match st.last_alert_time with
    | some t => decide (now - t < ALERT_COOLDOWN)
    | none => false
  if suppressed then (st, [])
  else
    let st1 := { st with last_alert_time := some now }
    let evs := [.setLastAlert now, .alertLog] ++
      (if st.audio_enabled then [.audioPlay] else [])
    let r := send_email_notification st1 now
    (r.1, evs ++ r.2)

/-- Run a sequence of trigger calls at the given timestamps. -/
def runAlerts (f : AlertState → ℤ → AlertState × List AlertEvent) (st : AlertState)
    (times : List ℤ) : AlertState × List AlertEvent :=
  times.foldl
    (fun acc t =>
      let r := f acc.1 t
      (r.1, acc.2 ++ r.2))
    (st, [])

/-- Count of alert events equal to `e`. -/
def countAlertEv (evs : List AlertEvent) (e : AlertEvent) : ℕ :=
  evs.countP (fun x => decide (x = e))

/-- Written from the spec/claim wording (amended): the alert channel's
gate is ready when it has never fired or its cooldown has elapsed. -/
def alertReady (st : AlertState) (now : ℤ) : Bool :=
  match st.last_alert_time with
  | some t => decide (ALERT_COOLDOWN ≤ now - t)
  | none => true

/-- Written from the spec/claim wording (amended): the email channel's
gate is ready when it has never fired or its cooldown has elapsed. -/
def emailReady (st : AlertState) (now : ℤ) : Bool :=
  match st.last_email_time with
  | some t => decide (EMAIL_COOLDOWN ≤ now - t)
  | none => true

/-- Written from the claim's correction: an email dispatch job is
submitted by `trigger_alert` exactly when the alert channel's own gate
passes, the checkbox is on, the email cooldown has elapsed, a frame is
stored, and the notifier validated — so email dispatch also depends on
the alert (audio) channel's last-fired time. -/
def emailDispatchCond (st : AlertState) (now : ℤ) : Bool :=
  alertReady st now && st.email_checkbox && emailReady st now && st.have_frame &&
    st.notifier_enabled

/-- A persistence call made by the per-person body of `update_frame`. -/
inductive DbCall
  | logViolation (person_id : ℕ)
  | logDetection (person_id : ℕ) (is_compliant : Bool)
deriving DecidableEq

/-- A storage-layer failure (a raised `sqlite3` error). -/
inductive DbErr
  | storageError
deriving DecidableEq

/-- The per-person body of `update_frame` with the exception flow of
the persistence calls made explicit: `db` gives each call's outcome,
and the source wraps none of the calls in a handler, so a raised error
escapes (`some e`) with the in-place mutations made before the raise
retained.  Audio and email failures are caught in the source
(`try/except` around `mixer`, `send_email` catching all exceptions on
the worker) and so never escape. -/
def processPersonE (db : DbCall → Except DbErr Unit) (L : Ledger) (person_id : ℕ)
    (viol : Bool) : (Ledger × List RecordEvent) × Option DbErr :=
  if person_id ∈ L.logged_person_ids then ((L, []), none)
  else
    let L1 := { L with
      logged_person_ids := insert person_id L.logged_person_ids
      session_total_people := L.session_total_people + 1 }
    if viol then
      let L2 := { L1 with session_violations := L1.session_violations + 1 }
      match db (.logViolation person_id) with
      | .error e => ((L2, []), some e)
      | .ok _ =>
        match db (.logDetection person_id false) with
        | .error e => ((L2, [.violationRec person_id, .alertTrig person_id]), some e)
        | .ok _ =>
          ((L2, [.violationRec person_id, .alertTrig person_id,
                 .detectionRec person_id false]), none)
    else
      let L2 := { L1 with session_compliant := L1.session_compliant + 1 }
      match db (.logDetection person_id true) with
      | .error e => ((L2, []), some e)
      | .ok _ => ((L2, [.detectionRec person_id true]), none)

/-- One frame of the per-person loop with the exception flow made
explicit: an escaped storage error aborts the remaining persons of the
frame (the loop body raises out of `update_frame`). -/
def processFrameE (db : DbCall → Except DbErr Unit) (L : Ledger)
    (frame : List (ℕ × Bool)) : (Ledger × List RecordEvent) × Option DbErr :=
  frame.foldl
    (fun acc pv =>
      match acc.2 with
      | some _ => acc
      | none =>
        let r := processPersonE db acc.1.1 pv.1 pv.2
        ((r.1.1, acc.1.2 ++ r.1.2), r.2))
    ((L, []), none)

/-! ## Overlap-ratio characterisation (Compliance Evaluator) -/

theorem ratio_cross (I A : ℤ) (hA : 0 < A) :
    ((3 : ℚ)/10 < (I : ℚ) / (A : ℚ)) ↔ 3 * A < 10 * I := by
  have hA' : (0 : ℚ) < (A : ℚ) := by exact_mod_cast hA
  rw [div_lt_div_iff₀ (by norm_num) hA']
  rw [show (3:ℚ) * A = ((3 * A : ℤ) : ℚ) by push_cast; ring,
      show (I:ℚ) * 10 = ((10 * I : ℤ) : ℚ) by push_cast; ring]
  exact Int.cast_lt

theorem check_proximity_iff (b1 b2 : Box) :
    check_proximity b1 b2 = true ↔ specAssociated b1 b2 := by
  by_cases hdeg : min b1.x2 b2.x2 < max b1.x1 b2.x1 ∨ min b1.y2 b2.y2 < max b1.y1 b2.y1
  · have hI : specInterArea b1 b2 = 0 := by
      unfold specInterArea
      rcases hdeg with h | h
      · rw [max_eq_left (by linarith : min b1.x2 b2.x2 - max b1.x1 b2.x1 ≤ 0), zero_mul]
      · rw [max_eq_left (by linarith : min b1.y2 b2.y2 - max b1.y1 b2.y1 ≤ 0), mul_zero]
    constructor
    · intro hcp
      exfalso
      unfold check_proximity at hcp
      rw [if_pos hdeg] at hcp
      exact Bool.false_ne_true hcp
    · rintro ⟨hA, hr⟩
      rw [hI] at hr
      norm_num at hr
  · push_neg at hdeg
    obtain ⟨hx, hy⟩ := hdeg
    have hI : specInterArea b1 b2 =
        (min b1.x2 b2.x2 - max b1.x1 b2.x1) * (min b1.y2 b2.y2 - max b1.y1 b2.y1) := by
      unfold specInterArea
      rw [max_eq_right (by linarith : (0:ℤ) ≤ min b1.x2 b2.x2 - max b1.x1 b2.x1),
          max_eq_right (by linarith : (0:ℤ) ≤ min b1.y2 b2.y2 - max b1.y1 b2.y1)]
    unfold check_proximity specAssociated
    rw [if_neg (by push_neg; exact ⟨hx, hy⟩)]
    rw [decide_eq_true_eq]
    unfold boxArea
    constructor
    · rintro ⟨hA, hlt⟩
      refine ⟨hA, ?_⟩
      rw [ratio_cross _ _ hA, hI]
      linarith
    · rintro ⟨hA, hr⟩
      refine ⟨hA, ?_⟩
      rw [ratio_cross _ _ hA, hI] at hr
      linarith

/-- C5: a detection is associated with a person exactly when the
intersection area of the two boxes divided by the person-box area
strictly exceeds 0.3 (intersection over the person box, not symmetric
IoU); person box (0,0,100,200) has area 20000, helmet box
(10,10,90,60) intersects it in area 4000, ratio 1/5 = 0.2 < 0.3, so
the helmet is not associated and the person is flagged as missing the
helmet in Mode A (Mode 1). -/
theorem C5_overlap_ratio :
    (∀ b1 b2 : Box, check_proximity b1 b2 = true ↔ specAssociated b1 b2) ∧
    boxArea ⟨0, 0, 100, 200⟩ = 20000 ∧
    specInterArea ⟨0, 0, 100, 200⟩ ⟨10, 10, 90, 60⟩ = 4000 ∧
    (specInterArea ⟨0, 0, 100, 200⟩ ⟨10, 10, 90, 60⟩ : ℚ) /
        (boxArea ⟨0, 0, 100, 200⟩ : ℚ) = 1/5 ∧
    check_proximity ⟨0, 0, 100, 200⟩ ⟨10, 10, 90, 60⟩ = false ∧
    statusGet
      (evalPerson 1 [⟨"Person", 1, ⟨0, 0, 100, 200⟩⟩, ⟨"helmet", 1, ⟨10, 10, 90, 60⟩⟩]
        ⟨"Person", 1, ⟨0, 0, 100, 200⟩⟩).ppe_status "helmet" = false ∧
    (evalPerson 1 [⟨"Person", 1, ⟨0, 0, 100, 200⟩⟩, ⟨"helmet", 1, ⟨10, 10, 90, 60⟩⟩]
        ⟨"Person", 1, ⟨0, 0, 100, 200⟩⟩).has_violation = true ∧
    (evalPerson 1 [⟨"Person", 1, ⟨0, 0, 100, 200⟩⟩, ⟨"helmet", 1, ⟨10, 10, 90, 60⟩⟩]
        ⟨"Person", 1, ⟨0, 0, 100, 200⟩⟩).violation_message =
      some "Missing PPE: helmet, gloves, vest, boots, goggles" := by
  refine ⟨check_proximity_iff, by decide, by decide, ?_, by decide, by decide, by decide,
    by decide⟩
  have h1 : specInterArea ⟨0, 0, 100, 200⟩ ⟨10, 10, 90, 60⟩ = 4000 := by decide
  have h2 : boxArea ⟨0, 0, 100, 200⟩ = 20000 := by decide
  rw [h1, h2]
  norm_num

/-- Witness for `C5_overlap_ratio` at a concrete pair of boxes. -/
theorem C5_overlap_ratio_witness :
    check_proximity ⟨0, 0, 100, 200⟩ ⟨0, 0, 100, 200⟩ = true ↔
      specAssociated ⟨0, 0, 100, 200⟩ ⟨0, 0, 100, 200⟩ :=
  C5_overlap_ratio.1 ⟨0, 0, 100, 200⟩ ⟨0, 0, 100, 200⟩

/-! ## Tracker identity reuse across reset (counterexample) -/

/-- C2 counterexample: `reset()` restarts identity numbering from 1,
so within one process lifetime an `update` after a session reset
assigns identity 1 again, to a brand-new track — the same identity is
assigned to two different tracks and the assigned sequence 1, 1 is not
strictly increasing. -/
theorem C2_counterexample :
    (PersonTracker.update (PersonTracker.init 50 30) [(0, 0, 10, 10)]).1 = [1] ∧
    ((PersonTracker.update (PersonTracker.init 50 30) [(0, 0, 10, 10)]).2.reset).next_id = 1 ∧
    ((PersonTracker.update (PersonTracker.init 50 30)
        [(0, 0, 10, 10)]).2.reset).tracked_persons = [] ∧
    (PersonTracker.update
        ((PersonTracker.update (PersonTracker.init 50 30) [(0, 0, 10, 10)]).2.reset)
        [(0, 0, 10, 10)]).1 = [1] := by
  decide

/-! ## Email dispatch is gated behind the alert channel (counterexample) -/

/-- C7 counterexample: with the email channel ready (last fired 100
seconds ago, far beyond the 30-second email cooldown; checkbox on;
notifier validated; frame stored) but the audio/alert channel still
inside its 3-second cooldown (last fired 1 second ago),
`trigger_alert` returns with no state change and submits no email
dispatch job — email dispatch depends on the audio channel's
last-fired time. -/
theorem C7_counterexample :
    EMAIL_COOLDOWN ≤ 100 - 0 ∧
    (⟨some 99, some 0, true, true, true, true⟩ : AlertState).email_checkbox = true ∧
    trigger_alert (⟨some 99, some 0, true, true, true, true⟩ : AlertState) 100 =
      ((⟨some 99, some 0, true, true, true, true⟩ : AlertState), []) := by
  decide

/-! ## Persistence errors escape the frame step (counterexample) -/

/-- C8 counterexample: with the storage layer failing, the first
person's `log_detection` raises; the error escapes the per-frame
processing uncaught (there is no handler in `update_frame` or in the
`Database` methods), the second person of the frame is never
processed, and no record is written. -/
theorem C8_counterexample :
    (processFrameE (fun _ => Except.error DbErr.storageError) startLedger
        [(1, false), (2, false)]).2 = some DbErr.storageError ∧
    (processFrameE (fun _ => Except.error DbErr.storageError) startLedger
        [(1, false), (2, false)]).1.1.session_total_people = 1 ∧
    (processFrameE (fun _ => Except.error DbErr.storageError) startLedger
        [(1, false), (2, false)]).1.2 = [] := by
  decide

/-! ## Degenerate detections are not dropped (counterexample) -/

/-- C9 counterexample: a frame whose only detection is a person with a
zero-area (degenerate) bounding box is not dropped from compliance
evaluation — `check_violations` still returns one verdict for it, and
flags it as a violation. -/
theorem C9_counterexample :
    (check_violations 1 [⟨"Person", 1, ⟨0, 0, 0, 0⟩⟩]).length = 1 ∧
    (check_violations 1 [⟨"Person", 1, ⟨0, 0, 0, 0⟩⟩]).map (fun r => r.has_violation) =
      [true] := by
  decide

/-! ## Mode A precedence of explicit violation classes (C4) -/

/-- C4: in Mode 1 (any-missing), whenever some explicit
violation-class detection is associated with the person's bounding box
by the proximity check, the person is marked violating and the
recorded reason is `Violation detected: v` for an associated violation
class `v` — this takes precedence over the missing-item enumeration,
whatever proper-PPE items are also associated. -/
theorem C4_modeA_violation_precedence (dets : List Detection) (p : Detection)
    (h : ∃ v ∈ PPE_VIOLATIONS, ∃ d ∈ dets,
        d.cls = v ∧ check_proximity p.bbox d.bbox = true) :
    (evalPerson 1 dets p).has_violation = true ∧
    ∃ v, violationDetected dets p.bbox = some v ∧
      (∃ d ∈ dets, d.cls = v ∧ check_proximity p.bbox d.bbox = true) ∧
      (evalPerson 1 dets p).violation_message = some ("Violation detected: " ++ v) := by
  have hsome : (violationDetected dets p.bbox).isSome := by
    unfold violationDetected
    rw [List.find?_isSome]
    obtain ⟨v, hv, d, hd, hcls, hprox⟩ := h
    refine ⟨v, hv, ?_⟩
    rw [List.any_eq_true]
    exact ⟨d, hd, by rw [Bool.and_eq_true, beq_iff_eq]; exact ⟨hcls, hprox⟩⟩
  obtain ⟨v, hv⟩ := Option.isSome_iff_exists.mp hsome
  have hv' : List.find?
      (fun v => dets.any (fun det => det.cls == v && check_proximity p.bbox det.bbox))
      PPE_VIOLATIONS = some v := hv
  have hpred := List.find?_some hv'
  rw [List.any_eq_true] at hpred
  obtain ⟨d, hd, hdp⟩ := hpred
  rw [Bool.and_eq_true, beq_iff_eq] at hdp
  have heval : evalPerson 1 dets p =
      { has_violation := true,
        violation_message := some ("Violation detected: " ++ v),
        ppe_status := ppeStatusFor dets p.bbox,
        confidence := p.confidence, bbox := p.bbox } := by
    unfold evalPerson
    dsimp only
    rw [hv]
    simp
  rw [heval]
  exact ⟨rfl, v, hv, ⟨d, hd, hdp.1, hdp.2⟩, rfl⟩

/-- Witness for `C4_modeA_violation_precedence`: the spec's example, a
person at (0,0,100,200) overlapped by a `no_helmet` detection (and by
a proper helmet detection as well) is marked violating with the
`no_helmet` reason. -/
theorem C4_modeA_violation_precedence_witness :
    (evalPerson 1
        [⟨"no_helmet", 1, ⟨0, 0, 100, 200⟩⟩, ⟨"helmet", 1, ⟨0, 0, 100, 200⟩⟩,
         ⟨"Person", 1, ⟨0, 0, 100, 200⟩⟩]
        ⟨"Person", 1, ⟨0, 0, 100, 200⟩⟩).has_violation = true ∧
    ∃ v, violationDetected
        [⟨"no_helmet", 1, ⟨0, 0, 100, 200⟩⟩, ⟨"helmet", 1, ⟨0, 0, 100, 200⟩⟩,
         ⟨"Person", 1, ⟨0, 0, 100, 200⟩⟩] (⟨0, 0, 100, 200⟩ : Box) = some v ∧
      (∃ d ∈ [⟨"no_helmet", 1, ⟨0, 0, 100, 200⟩⟩, ⟨"helmet", 1, ⟨0, 0, 100, 200⟩⟩,
              (⟨"Person", 1, ⟨0, 0, 100, 200⟩⟩ : Detection)],
        d.cls = v ∧ check_proximity (⟨0, 0, 100, 200⟩ : Box) d.bbox = true) ∧
      (evalPerson 1
          [⟨"no_helmet", 1, ⟨0, 0, 100, 200⟩⟩, ⟨"helmet", 1, ⟨0, 0, 100, 200⟩⟩,
           ⟨"Person", 1, ⟨0, 0, 100, 200⟩⟩]
          ⟨"Person", 1, ⟨0, 0, 100, 200⟩⟩).violation_message =
        some ("Violation detected: " ++ v) :=
  C4_modeA_violation_precedence _ _
    ⟨"no_helmet", by decide, ⟨"no_helmet", 1, ⟨0, 0, 100, 200⟩⟩, by decide, rfl, by decide⟩

/-! ## Cooldown gating of the alert channels (C6) -/

/-- C6: a trigger call inside a channel's cooldown window is a no-op
(no state change, no dispatch); an unsuppressed email call sets the
channel's last-fired time and the update event precedes the dispatch
submission; triggering a fresh channel at t = 0 and t = cooldown − 1
dispatches once, at t = 0 and t = cooldown + 1 twice (shown for the
email channel's dispatch job and for the alert channel's log/audio
action). -/
theorem C6_cooldown_gating :
    (∀ (st : AlertState) (now t : ℤ), st.email_checkbox = true →
        st.last_email_time = some t → now - t < EMAIL_COOLDOWN →
        send_email_notification st now = (st, [])) ∧
    (∀ (st : AlertState) (now : ℤ), st.email_checkbox = true → st.have_frame = true →
        st.notifier_enabled = true →
        (st.last_email_time = none ∨
          ∃ t, st.last_email_time = some t ∧ EMAIL_COOLDOWN ≤ now - t) →
        send_email_notification st now =
          ({ st with last_email_time := some now },
           [.setLastEmail now, .emailSubmit, .emailLog])) ∧
    (∀ (st : AlertState) (now t : ℤ), st.last_alert_time = some t →
        now - t < ALERT_COOLDOWN → trigger_alert st now = (st, [])) ∧
    countAlertEv (runAlerts send_email_notification ⟨none, none, true, true, true, true⟩
        [0, EMAIL_COOLDOWN - 1]).2 .emailSubmit = 1 ∧
    countAlertEv (runAlerts send_email_notification ⟨none, none, true, true, true, true⟩
        [0, EMAIL_COOLDOWN + 1]).2 .emailSubmit = 2 ∧
    countAlertEv (runAlerts trigger_alert ⟨none, none, true, true, true, true⟩
        [0, ALERT_COOLDOWN - 1]).2 .alertLog = 1 ∧
    countAlertEv (runAlerts trigger_alert ⟨none, none, true, true, true, true⟩
        [0, ALERT_COOLDOWN + 1]).2 .alertLog = 2 := by
  refine ⟨?_, ?_, ?_, by decide, by decide, by decide, by decide⟩
  · intro st now t hcb hlast hlt
    unfold send_email_notification
    rw [hcb, hlast]
    simp [decide_eq_true hlt]
  · intro st now hcb hf hn hready
    unfold send_email_notification
    rw [hcb, hf, hn]
    rcases hready with hnone | ⟨t, hsome, hle⟩
    · rw [hnone]
      simp
    · rw [hsome]
      simp [decide_eq_false (by omega : ¬ (now - t < EMAIL_COOLDOWN))]
  · intro st now t hlast hlt
    unfold trigger_alert
    rw [hlast]
    simp [decide_eq_true hlt]

/-- Witness for `C6_cooldown_gating` at concrete channel states. -/
theorem C6_cooldown_gating_witness :
    send_email_notification ⟨none, some 10, true, true, true, true⟩ 15 =
      (⟨none, some 10, true, true, true, true⟩, []) ∧
    send_email_notification ⟨none, some 10, true, true, true, true⟩ 40 =
      (⟨none, some 40, true, true, true, true⟩,
       [.setLastEmail 40, .emailSubmit, .emailLog]) ∧
    trigger_alert ⟨some 10, none, true, true, true, true⟩ 11 =
      (⟨some 10, none, true, true, true, true⟩, []) :=
  ⟨C6_cooldown_gating.1 ⟨none, some 10, true, true, true, true⟩ 15 10 rfl rfl (by decide),
   C6_cooldown_gating.2.1 ⟨none, some 10, true, true, true, true⟩ 40 rfl rfl rfl
     (Or.inr ⟨10, rfl, by decide⟩),
   C6_cooldown_gating.2.2.1 ⟨some 10, none, true, true, true, true⟩ 11 10 rfl (by decide)⟩

/-- C7 (amended): `trigger_alert` submits an email dispatch job
exactly when the alert channel's own cooldown gate passes AND the
email checkbox is on AND the email channel's cooldown has elapsed AND
a frame is stored AND the notifier validated — the email channel is
not gated independently: its dispatch also depends on the alert
(audio) channel's last-fired time. -/
theorem C7_email_dispatch_characterisation (st : AlertState) (now : ℤ) :
    countAlertEv (trigger_alert st now).2 AlertEvent.emailSubmit =
      if emailDispatchCond st now then 1 else 0 := by
  rcases st with ⟨la, le, cb, nen, au, hf⟩
  unfold trigger_alert send_email_notification emailDispatchCond alertReady emailReady
    countAlertEv
  rcases la with _ | t1 <;> rcases le with _ | t2 <;>
    cases cb <;> cases nen <;> cases au <;> cases hf <;>
      simp [List.countP_cons, List.countP_append, ALERT_COOLDOWN, EMAIL_COOLDOWN] <;>
      split_ifs <;>
        simp_all [List.countP_cons, List.countP_append] <;> omega

/-! ## Persistence errors are not caught in the frame loop (C8) -/

theorem processPersonE_ok (db : DbCall → Except DbErr Unit)
    (hdb : ∀ c, db c = Except.ok ()) (L : Ledger) (pid : ℕ) (v : Bool) :
    processPersonE db L pid v = (processPerson L pid v, none) := by
  unfold processPersonE processPerson
  by_cases h : pid ∈ L.logged_person_ids
  · simp [h]
  · simp [h, hdb]
    cases v <;> simp

theorem frame_fold_shift (frame : List (ℕ × Bool)) (L : Ledger) (evs : List RecordEvent) :
    frame.foldl
        (fun acc pv =>
          let r := processPerson acc.1 pv.1 pv.2
          (r.1, acc.2 ++ r.2))
        (L, evs) =
      ((processFrame L frame).1, evs ++ (processFrame L frame).2) := by
  induction frame generalizing L evs with
  | nil => simp [processFrame]
  | cons pv f ih =>
    have hu : processFrame L (pv :: f) =
        ((processFrame (processPerson L pv.1 pv.2).1 f).1,
          (processPerson L pv.1 pv.2).2 ++
            (processFrame (processPerson L pv.1 pv.2).1 f).2) := by
      unfold processFrame
      rw [List.foldl_cons]
      dsimp only
      rw [ih (processPerson L pv.1 pv.2).1 ([] ++ (processPerson L pv.1 pv.2).2)]
      simp [processFrame]
    rw [List.foldl_cons]
    dsimp only
    rw [ih (processPerson L pv.1 pv.2).1 (evs ++ (processPerson L pv.1 pv.2).2), hu]
    simp

theorem processFrame_cons (L : Ledger) (pv : ℕ × Bool) (f : List (ℕ × Bool)) :
    processFrame L (pv :: f) =
      ((processFrame (processPerson L pv.1 pv.2).1 f).1,
        (processPerson L pv.1 pv.2).2 ++
          (processFrame (processPerson L pv.1 pv.2).1 f).2) := by
  unfold processFrame
  rw [List.foldl_cons]
  dsimp only
  rw [frame_fold_shift f (processPerson L pv.1 pv.2).1 ([] ++ (processPerson L pv.1 pv.2).2)]
  simp [processFrame]

theorem processFrameE_go (db : DbCall → Except DbErr Unit)
    (hdb : ∀ c, db c = Except.ok ()) (frame : List (ℕ × Bool)) (L : Ledger)
    (evs : List RecordEvent) :
    frame.foldl
        (fun acc pv =>
          match acc.2 with
          | some _ => acc
          | none =>
            let r := processPersonE db acc.1.1 pv.1 pv.2
            ((r.1.1, acc.1.2 ++ r.1.2), r.2))
        ((L, evs), none) =
      (((processFrame L frame).1, evs ++ (processFrame L frame).2), none) := by
  induction frame generalizing L evs with
  | nil => simp [processFrame]
  | cons pv f ih =>
    rw [List.foldl_cons]
    dsimp only
    rw [processPersonE_ok db hdb]
    dsimp only
    rw [ih (processPerson L pv.1 pv.2).1 (evs ++ (processPerson L pv.1 pv.2).2)]
    rw [processFrame_cons]
    simp

/-- C8 (amended): the frame loop wraps no persistence call in a
handler: when every storage call succeeds the exception-aware model
agrees with the pure one (no error escapes), and when a storage call
raises, the error escapes the per-person body of `update_frame`
uncaught. -/
theorem C8_storage_errors_uncaught :
    (∀ (db : DbCall → Except DbErr Unit) (L : Ledger) (frame : List (ℕ × Bool)),
        (∀ c, db c = Except.ok ()) →
        processFrameE db L frame = (processFrame L frame, none)) ∧
    (∀ (db : DbCall → Except DbErr Unit) (L : Ledger) (pid : ℕ) (e : DbErr),
        pid ∉ L.logged_person_ids → db (DbCall.logDetection pid true) = Except.error e →
        (processPersonE db L pid false).2 = some e) := by
  constructor
  · intro db L frame hdb
    unfold processFrameE
    rw [processFrameE_go db hdb frame L []]
    simp
  · intro db L pid e hmem herr
    unfold processPersonE
    simp [hmem, herr]

/-- Witness for `C8_storage_errors_uncaught` at a concrete database
oracle, ledger and frame. -/
theorem C8_storage_errors_uncaught_witness :
    processFrameE (fun _ => Except.ok ()) startLedger [(1, true)] =
      (processFrame startLedger [(1, true)], none) ∧
    (processPersonE (fun _ => Except.error DbErr.storageError) startLedger 1 false).2 =
      some DbErr.storageError :=
  ⟨C8_storage_errors_uncaught.1 _ startLedger [(1, true)] (fun _ => rfl),
   C8_storage_errors_uncaught.2 _ startLedger 1 DbErr.storageError (by decide) rfl⟩

/-! ## Degenerate bounding boxes (C9) -/

theorem degenerate_not_associated (pbox dbox : Box)
    (h : dbox.x2 ≤ dbox.x1 ∨ dbox.y2 ≤ dbox.y1) :
    check_proximity pbox dbox = false := by
  unfold check_proximity
  by_cases hc : min pbox.x2 dbox.x2 < max pbox.x1 dbox.x1 ∨
      min pbox.y2 dbox.y2 < max pbox.y1 dbox.y1
  · rw [if_pos hc]
  · rw [if_neg hc]
    push_neg at hc
    obtain ⟨hx, hy⟩ := hc
    rw [decide_eq_false_iff_not]
    rintro ⟨hA, hlt⟩
    rcases h with h | h
    · have h1 : min pbox.x2 dbox.x2 - max pbox.x1 dbox.x1 ≤ 0 := by
        have := min_le_right pbox.x2 dbox.x2
        have := le_max_right pbox.x1 dbox.x1
        omega
      have h2 : 0 ≤ min pbox.y2 dbox.y2 - max pbox.y1 dbox.y1 := by omega
      nlinarith [mul_nonneg h2 (by omega : (0:ℤ) ≤ max pbox.x1 dbox.x1 - min pbox.x2 dbox.x2)]
    · have h1 : min pbox.y2 dbox.y2 - max pbox.y1 dbox.y1 ≤ 0 := by
        have := min_le_right pbox.y2 dbox.y2
        have := le_max_right pbox.y1 dbox.y1
        omega
      have h2 : 0 ≤ min pbox.x2 dbox.x2 - max pbox.x1 dbox.x1 := by omega
      nlinarith [mul_nonneg h2 (by omega : (0:ℤ) ≤ max pbox.y1 dbox.y1 - min pbox.y2 dbox.y2)]

theorem degenerate_person_not_associated (pbox dbox : Box) (h : boxArea pbox ≤ 0) :
    check_proximity pbox dbox = false := by
  unfold check_proximity
  by_cases hc : min pbox.x2 dbox.x2 < max pbox.x1 dbox.x1 ∨
      min pbox.y2 dbox.y2 < max pbox.y1 dbox.y1
  · rw [if_pos hc]
  · rw [if_neg hc]
    rw [decide_eq_false_iff_not]
    rintro ⟨hA, _⟩
    unfold boxArea at h
    omega

theorem ppe_inner_fold_id (item : String) (pbox : Box) (l : List Detection)
    (h : ∀ d ∈ l, check_proximity pbox d.bbox = false) (st : List (String × Bool)) :
    l.foldl
        (fun st2 det =>
          if det.cls = item ∧ check_proximity pbox det.bbox then statusSet st2 item
          else st2)
        st = st := by
  induction l generalizing st with
  | nil => rfl
  | cons d ds ih =>
    rw [List.foldl_cons]
    rw [if_neg ?_]
    · exact ih (fun d hd => h d (List.mem_cons_of_mem _ hd)) st
    · rintro ⟨-, hprox⟩
      rw [h d (List.mem_cons_self d ds)] at hprox
      exact Bool.false_ne_true hprox

theorem ppeStatusFor_of_no_assoc (dets : List Detection) (pbox : Box)
    (h : ∀ d ∈ dets, check_proximity pbox d.bbox = false) :
    ppeStatusFor dets pbox = ppeStatusInit := by
  unfold ppeStatusFor
  generalize ppeStatusInit = st
  induction PPE_PROPER generalizing st with
  | nil => rfl
  | cons i is ih =>
    rw [List.foldl_cons]
    by_cases hi : i = "Person"
    · rw [if_pos hi]
      exact ih st
    · rw [if_neg hi, ppe_inner_fold_id i pbox dets h st]
      exact ih st

theorem violationDetected_of_no_assoc (dets : List Detection) (pbox : Box)
    (h : ∀ d ∈ dets, check_proximity pbox d.bbox = false) :
    violationDetected dets pbox = none := by
  unfold violationDetected
  rw [List.find?_eq_none]
  intro v _
  rw [Bool.not_eq_true, List.any_eq_false]
  intro d hd
  rw [Bool.and_eq_true]
  rintro ⟨-, hprox⟩
  rw [h d hd] at hprox
  exact Bool.false_ne_true hprox

theorem evalPerson_degenerate (dets : List Detection) (p : Detection)
    (h : boxArea p.bbox ≤ 0) :
    evalPerson 1 dets p =
      { has_violation := true,
        violation_message := some "Missing PPE: helmet, gloves, vest, boots, goggles",
        ppe_status := ppeStatusInit, confidence := p.confidence, bbox := p.bbox } := by
  have hall : ∀ d ∈ dets, check_proximity p.bbox d.bbox = false :=
    fun d _ => degenerate_person_not_associated p.bbox d.bbox h
  have h1 := ppeStatusFor_of_no_assoc dets p.bbox hall
  have h2 := violationDetected_of_no_assoc dets p.bbox hall
  unfold evalPerson
  dsimp only
  rw [h1, h2]
  rfl

/-- C9 (amended): a degenerate detection is not dropped from
compliance evaluation; instead (a) `check_violations` always returns
exactly one verdict per person detection (the frame is never aborted),
(b) a detection whose box is degenerate (inverted or zero-width /
zero-height) never associates with any person via the proximity check,
and (c) a person whose own box has non-positive area is still
evaluated: every proximity check against it returns false, so in Mode
1 it is flagged as missing all five PPE items. -/
theorem C9_degenerate_not_dropped :
    (∀ (mode : ℕ) (dets : List Detection),
        (check_violations mode dets).length =
          (dets.filter (fun d => d.cls == PERSON_CLASS)).length) ∧
    (∀ pbox dbox : Box, dbox.x2 ≤ dbox.x1 ∨ dbox.y2 ≤ dbox.y1 →
        check_proximity pbox dbox = false) ∧
    (∀ (dets : List Detection) (p : Detection), boxArea p.bbox ≤ 0 →
        evalPerson 1 dets p =
          { has_violation := true,
            violation_message := some "Missing PPE: helmet, gloves, vest, boots, goggles",
            ppe_status := ppeStatusInit, confidence := p.confidence, bbox := p.bbox }) := by
  refine ⟨?_, degenerate_not_associated, evalPerson_degenerate⟩
  intro mode dets
  unfold check_violations
  rw [List.length_map]

/-- Witness for `C9_degenerate_not_dropped` at concrete degenerate
boxes. -/
theorem C9_degenerate_not_dropped_witness :
    (check_violations 1 [⟨"Person", 1, ⟨0, 0, 0, 0⟩⟩]).length =
      (([⟨"Person", 1, ⟨0, 0, 0, 0⟩⟩] :
        List Detection).filter (fun d => d.cls == PERSON_CLASS)).length ∧
    check_proximity ⟨0, 0, 100, 200⟩ ⟨50, 50, 40, 60⟩ = false ∧
    evalPerson 1 [⟨"Person", 1, ⟨0, 0, 0, 0⟩⟩] ⟨"Person", 1, ⟨0, 0, 0, 0⟩⟩ =
      { has_violation := true,
        violation_message := some "Missing PPE: helmet, gloves, vest, boots, goggles",
        ppe_status := ppeStatusInit, confidence := 1, bbox := ⟨0, 0, 0, 0⟩ } :=
  ⟨C9_degenerate_not_dropped.1 1 [⟨"Person", 1, ⟨0, 0, 0, 0⟩⟩],
   C9_degenerate_not_dropped.2.1 ⟨0, 0, 100, 200⟩ ⟨50, 50, 40, 60⟩ (by decide),
   C9_degenerate_not_dropped.2.2 [⟨"Person", 1, ⟨0, 0, 0, 0⟩⟩] ⟨"Person", 1, ⟨0, 0, 0, 0⟩⟩
     (by decide)⟩

/-! ## Session ledger: counters, dedup, single-write (C10, C1) -/

theorem processPerson_logged (L : Ledger) (pid : ℕ) (v : Bool) :
    (processPerson L pid v).1.logged_person_ids = insert pid L.logged_person_ids := by
  unfold processPerson
  by_cases h : pid ∈ L.logged_person_ids
  · simp [h, Finset.insert_eq_self.mpr h]
  · by_cases hv : v <;> simp [h, hv]

theorem processPerson_inv (L : Ledger) (pid : ℕ) (v : Bool) (h : LedgerInv L) :
    LedgerInv (processPerson L pid v).1 := by
  unfold processPerson
  unfold LedgerInv at h ⊢
  obtain ⟨h1, h2⟩ := h
  by_cases hm : pid ∈ L.logged_person_ids
  · simp [hm]
    exact ⟨h1, h2⟩
  · by_cases hv : v <;>
      simp [hm, hv, Finset.card_insert_of_not_mem hm] <;> omega

theorem processFrame_inv (frame : List (ℕ × Bool)) :
    ∀ L : Ledger, LedgerInv L → LedgerInv (processFrame L frame).1 := by
  induction frame with
  | nil => intro L h; exact h
  | cons pv f ih =>
    intro L h
    rw [processFrame_cons]
    exact ih _ (processPerson_inv _ _ _ h)

theorem processFrame_logged (frame : List (ℕ × Bool)) :
    ∀ L : Ledger, (processFrame L frame).1.logged_person_ids =
      L.logged_person_ids ∪ (frame.map (fun pv => pv.1)).toFinset := by
  induction frame with
  | nil => intro L; simp [processFrame]
  | cons pv f ih =>
    intro L
    rw [processFrame_cons]
    dsimp only
    rw [ih, processPerson_logged]
    rw [List.map_cons, List.toFinset_cons]
    rw [Finset.insert_union, Finset.union_insert]

theorem runFrames_inv (frames : List (List (ℕ × Bool))) :
    ∀ L : Ledger, LedgerInv L → LedgerInv (runFrames L frames).1 := by
  induction frames with
  | nil => intro L h; exact h
  | cons f fs ih =>
    intro L h
    unfold runFrames
    dsimp only
    exact ih _ (processFrame_inv f L h)

theorem runFrames_logged (frames : List (List (ℕ × Bool))) :
    ∀ L : Ledger, (runFrames L frames).1.logged_person_ids =
      L.logged_person_ids ∪ (traceIds frames).toFinset := by
  induction frames with
  | nil => intro L; simp [runFrames, traceIds]
  | cons f fs ih =>
    intro L
    unfold runFrames
    dsimp only
    rw [ih, processFrame_logged]
    unfold traceIds
    rw [List.flatten_cons, List.map_append, List.toFinset_append, Finset.union_assoc]

theorem countEv_append (a b : List RecordEvent) (e : RecordEvent) :
    countEv (a ++ b) e = countEv a e + countEv b e := by
  unfold countEv
  rw [List.countP_append]

theorem countDet_append (a b : List RecordEvent) (pid : ℕ) :
    countDet (a ++ b) pid = countDet a pid + countDet b pid := by
  unfold countDet
  rw [List.countP_append]

theorem countViol_append (a b : List RecordEvent) (pid : ℕ) :
    countViol (a ++ b) pid = countViol a pid + countViol b pid := by
  unfold countViol
  rw [List.countP_append]

theorem countAlertT_append (a b : List RecordEvent) (pid : ℕ) :
    countAlertT (a ++ b) pid = countAlertT a pid + countAlertT b pid := by
  unfold countAlertT
  rw [List.countP_append]

theorem processPerson_countDet (L : Ledger) (pid' : ℕ) (v : Bool) (pid : ℕ) :
    countDet (processPerson L pid' v).2 pid =
      if pid' = pid ∧ pid' ∉ L.logged_person_ids then 1 else 0 := by
  unfold processPerson countDet
  by_cases hm : pid' ∈ L.logged_person_ids
  · simp [hm]
  · by_cases hp : pid' = pid
    · subst hp
      by_cases hv : v <;> simp [hm, hv, List.countP_cons]
    · by_cases hv : v <;> simp [hm, hp, hv, List.countP_cons]

theorem processPerson_countViol_le (L : Ledger) (pid' : ℕ) (v : Bool) (pid : ℕ) :
    countViol (processPerson L pid' v).2 pid ≤ countDet (processPerson L pid' v).2 pid := by
  unfold processPerson countViol countDet
  by_cases hm : pid' ∈ L.logged_person_ids
  · simp [hm]
  · by_cases hp : pid' = pid
    · subst hp
      by_cases hv : v <;> simp [hm, hv, List.countP_cons]
    · by_cases hv : v <;> simp [hm, hp, hv, List.countP_cons]

theorem processPerson_countAlertT_le (L : Ledger) (pid' : ℕ) (v : Bool) (pid : ℕ) :
    countAlertT (processPerson L pid' v).2 pid ≤ countDet (processPerson L pid' v).2 pid := by
  unfold processPerson countAlertT countDet
  by_cases hm : pid' ∈ L.logged_person_ids
  · simp [hm]
  · by_cases hp : pid' = pid
    · subst hp
      by_cases hv : v <;> simp [hm, hv, List.countP_cons]
    · by_cases hv : v <;> simp [hm, hp, hv, List.countP_cons]

theorem processFrame_countDet (frame : List (ℕ × Bool)) :
    ∀ (L : Ledger) (pid : ℕ),
      countDet (processFrame L frame).2 pid =
        if pid ∈ (processFrame L frame).1.logged_person_ids ∧
            pid ∉ L.logged_person_ids then 1 else 0 := by
  induction frame with
  | nil => intro L pid; simp [processFrame, countDet]
  | cons pv f ih =>
    intro L pid
    rw [processFrame_cons]
    dsimp only
    rw [countDet_append, processPerson_countDet, ih, processFrame_logged,
        processPerson_logged]
    by_cases hp : pv.1 = pid
    · subst hp
      by_cases hB : pv.1 ∈ L.logged_person_ids
      · simp [hB, Finset.insert_eq_self.mpr hB]
      · simp [hB, Finset.mem_insert_self]
    · have hmem : (pid ∈ insert pv.1 L.logged_person_ids) ↔ pid ∈ L.logged_person_ids := by
        rw [Finset.mem_insert]
        refine ⟨?_, Or.inr⟩
        rintro (h | h)
        · exact absurd (Eq.symm h) hp
        · exact h
      simp [hp, hmem, Finset.mem_union]

theorem processFrame_countViol_le (frame : List (ℕ × Bool)) :
    ∀ (L : Ledger) (pid : ℕ),
      countViol (processFrame L frame).2 pid ≤ countDet (processFrame L frame).2 pid := by
  induction frame with
  | nil => intro L pid; simp [processFrame, countDet, countViol]
  | cons pv f ih =>
    intro L pid
    rw [processFrame_cons]
    dsimp only
    rw [countDet_append, countViol_append]
    exact Nat.add_le_add (processPerson_countViol_le L pv.1 pv.2 pid) (ih _ pid)

theorem processFrame_countAlertT_le (frame : List (ℕ × Bool)) :
    ∀ (L : Ledger) (pid : ℕ),
      countAlertT (processFrame L frame).2 pid ≤ countDet (processFrame L frame).2 pid := by
  induction frame with
  | nil => intro L pid; simp [processFrame, countDet, countAlertT]
  | cons pv f ih =>
    intro L pid
    rw [processFrame_cons]
    dsimp only
    rw [countDet_append, countAlertT_append]
    exact Nat.add_le_add (processPerson_countAlertT_le L pv.1 pv.2 pid) (ih _ pid)

theorem runFrames_countDet (frames : List (List (ℕ × Bool))) :
    ∀ (L : Ledger) (pid : ℕ),
      countDet (runFrames L frames).2 pid =
        if pid ∈ (runFrames L frames).1.logged_person_ids ∧
            pid ∉ L.logged_person_ids then 1 else 0 := by
  induction frames with
  | nil => intro L pid; simp [runFrames, countDet]
  | cons f fs ih =>
    intro L pid
    unfold runFrames
    dsimp only
    rw [countDet_append, processFrame_countDet, ih, runFrames_logged,
        processFrame_logged]
    by_cases h1 : pid ∈ (f.map (fun pv => pv.1)).toFinset
    · by_cases hB : pid ∈ L.logged_person_ids <;>
        simp [h1, hB, Finset.mem_union]
    · by_cases hB : pid ∈ L.logged_person_ids
      · simp [h1, hB, Finset.mem_union]
      · by_cases h2 : pid ∈ (traceIds fs).toFinset <;>
          simp [h1, hB, h2, Finset.mem_union]

theorem runFrames_countViol_le (frames : List (List (ℕ × Bool))) :
    ∀ (L : Ledger) (pid : ℕ),
      countViol (runFrames L frames).2 pid ≤ countDet (runFrames L frames).2 pid := by
  induction frames with
  | nil => intro L pid; simp [runFrames, countDet, countViol]
  | cons f fs ih =>
    intro L pid
    unfold runFrames
    dsimp only
    rw [countDet_append, countViol_append]
    exact Nat.add_le_add (processFrame_countViol_le f L pid) (ih _ pid)

theorem runFrames_countAlertT_le (frames : List (List (ℕ × Bool))) :
    ∀ (L : Ledger) (pid : ℕ),
      countAlertT (runFrames L frames).2 pid ≤ countDet (runFrames L frames).2 pid := by
  induction frames with
  | nil => intro L pid; simp [runFrames, countDet, countAlertT]
  | cons f fs ih =>
    intro L pid
    unfold runFrames
    dsimp only
    rw [countDet_append, countAlertT_append]
    exact Nat.add_le_add (processFrame_countAlertT_le f L pid) (ih _ pid)

/-- C10: after session start and after every processed frame, the
session counters satisfy `total = compliant + violations` and `total`
equals the size of the logged-identity set; the session reset
establishes the invariant and every per-person and per-frame operation
preserves it. -/
theorem C10_session_counters_invariant :
    LedgerInv startLedger ∧
    (∀ (L : Ledger) (pid : ℕ) (v : Bool), LedgerInv L →
        LedgerInv (processPerson L pid v).1) ∧
    (∀ (L : Ledger) (frame : List (ℕ × Bool)), LedgerInv L →
        LedgerInv (processFrame L frame).1) :=
  ⟨by decide, processPerson_inv, fun L frame h => processFrame_inv frame L h⟩

/-- Witness for `C10_session_counters_invariant` at a concrete ledger
and frame. -/
theorem C10_session_counters_invariant_witness :
    LedgerInv (processPerson startLedger 4 true).1 ∧
    LedgerInv (processFrame startLedger [(1, true), (1, false), (2, false)]).1 :=
  ⟨C10_session_counters_invariant.2.1 startLedger 4 true (by decide),
   C10_session_counters_invariant.2.2 startLedger [(1, true), (1, false), (2, false)]
     (by decide)⟩

/-- C1: per session, each identity is counted and logged at most once:
a repeat observation is a strict no-op (no counter change, no record);
a first observation inserts the identity, bumps the total by one and
writes the violation record, alert trigger and detection record of its
verdict; over any whole session started by the `start_detection`
reset, the session total never exceeds the number of distinct
identities in the tracker's output, and at most one detection record,
one violation record and one alert trigger are produced per
identity. -/
theorem C1_session_dedup :
    (∀ (L : Ledger) (pid : ℕ) (v : Bool), pid ∈ L.logged_person_ids →
        processPerson L pid v = (L, [])) ∧
    (∀ (L : Ledger) (pid : ℕ) (v : Bool), pid ∉ L.logged_person_ids →
        (processPerson L pid v).1.logged_person_ids = insert pid L.logged_person_ids ∧
        (processPerson L pid v).1.session_total_people = L.session_total_people + 1 ∧
        (processPerson L pid v).2 =
          (if v then [.violationRec pid, .alertTrig pid, .detectionRec pid false]
           else [.detectionRec pid true])) ∧
    (∀ frames : List (List (ℕ × Bool)),
        (runFrames startLedger frames).1.session_total_people ≤
          (traceIds frames).toFinset.card) ∧
    (∀ (frames : List (List (ℕ × Bool))) (pid : ℕ),
        countDet (runFrames startLedger frames).2 pid ≤ 1 ∧
        countViol (runFrames startLedger frames).2 pid ≤ 1 ∧
        countAlertT (runFrames startLedger frames).2 pid ≤ 1) := by
  refine ⟨?_, ?_, ?_, ?_⟩
  · intro L pid v h
    unfold processPerson
    simp [h]
  · intro L pid v h
    refine ⟨processPerson_logged L pid v, ?_, ?_⟩ <;>
      unfold processPerson <;> by_cases hv : v <;> simp [h, hv]
  · intro frames
    have hinv := runFrames_inv frames startLedger (by decide)
    have hlog := runFrames_logged frames startLedger
    unfold LedgerInv at hinv
    rw [hinv.2, hlog]
    simp [startLedger]
  · intro frames pid
    have hd := runFrames_countDet frames startLedger pid
    have h1 : countDet (runFrames startLedger frames).2 pid ≤ 1 := by
      rw [hd]
      split <;> omega
    exact ⟨h1, le_trans (runFrames_countViol_le frames startLedger pid) h1,
      le_trans (runFrames_countAlertT_le frames startLedger pid) h1⟩

/-- Witness for `C1_session_dedup` at a concrete ledger, identities
and session trace. -/
theorem C1_session_dedup_witness :
    processPerson ⟨1, 0, 1, {7}⟩ 7 true = (⟨1, 0, 1, {7}⟩, []) ∧
    (processPerson startLedger 3 false).1.logged_person_ids =
      insert 3 startLedger.logged_person_ids ∧
    (runFrames startLedger [[(1, true)], [(1, true), (2, false)]]).1.session_total_people ≤
      (traceIds [[(1, true)], [(1, true), (2, false)]]).toFinset.card ∧
    countDet (runFrames startLedger [[(1, true)], [(1, true), (2, false)]]).2 1 ≤ 1 :=
  ⟨C1_session_dedup.1 ⟨1, 0, 1, {7}⟩ 7 true (by decide),
   (C1_session_dedup.2.1 startLedger 3 false (by decide)).1,
   C1_session_dedup.2.2.1 [[(1, true)], [(1, true), (2, false)]],
   (C1_session_dedup.2.2.2 [[(1, true)], [(1, true), (2, false)]] 1).1⟩

/-! ## Tracker: the inner loop computes the nearest unused candidate -/

theorem findBest_fold_rel (used : List ℕ) (c : ℤ × ℤ) (maxD : ℕ) :
    ∀ (snapshot : List (ℕ × (ℤ × ℤ))) (a : Option ℤ × Option ℕ)
      (b : Option (ℕ × (ℤ × ℤ))), FBRel c maxD a b →
      FBRel c maxD
        (snapshot.foldl
          (fun (acc : Option ℤ × Option ℕ) p =>
            if p.1 ∈ used then acc
            else
              let d := distSq c p.2
              let ltMin : Bool :=
                match acc.1 with
                | none => true
                | some m => decide (d < m)
              if ltMin ∧ d < (maxD : ℤ) ^ 2 then (some d, some p.1) else acc)
          a)
        ((snapshot.filter
            (fun p => decide (p.1 ∉ used ∧ distSq c p.2 < (maxD : ℤ) ^ 2))).foldl
          (fun (acc : Option (ℕ × (ℤ × ℤ))) p =>
            match acc with
            | none => some p
            | some q => if distSq c p.2 < distSq c q.2 then some p else some q)
          b) := by
  intro snapshot
  induction snapshot with
  | nil => intro a b h; exact h
  | cons p ps ih =>
    intro a b h
    rw [List.foldl_cons]
    by_cases hu : p.1 ∈ used
    · rw [List.filter_cons_of_neg (by simp [hu])]
      rw [if_pos hu]
      exact ih a b h
    · rw [if_neg hu]
      by_cases hd : distSq c p.2 < (maxD : ℤ) ^ 2
      · rw [List.filter_cons_of_pos (by simp [hu, hd]), List.foldl_cons]
        match a, b, h with
        | (none, none), none, _ =>
          dsimp only
          rw [if_pos ⟨rfl, hd⟩]
          exact ih _ _ ⟨rfl, rfl, hd⟩
        | (some dq, some i), some q, hq =>
          obtain ⟨hi, hdq, hlt⟩ := hq
          dsimp only
          by_cases hcmp : distSq c p.2 < dq
          · rw [if_pos ⟨decide_eq_true hcmp, hd⟩]
            rw [if_pos (by rw [← hdq]; exact hcmp)]
            exact ih _ _ ⟨rfl, rfl, hd⟩
          · rw [if_neg (fun hx => hcmp (of_decide_eq_true hx.1))]
            rw [if_neg (by rw [← hdq]; exact hcmp)]
            exact ih _ _ ⟨hi, hdq, hlt⟩
      · rw [List.filter_cons_of_neg (by simp [hd])]
        match a, b, h with
        | (none, none), none, _ =>
          dsimp only
          rw [if_neg (fun hx => hd hx.2)]
          exact ih _ _ trivial
        | (some dq, some i), some q, hq =>
          dsimp only
          rw [if_neg (fun hx => hd hx.2)]
          exact ih _ _ hq

theorem findBest_eq_claimBest (snapshot : List (ℕ × (ℤ × ℤ))) (used : List ℕ)
    (c : ℤ × ℤ) (maxD : ℕ) :
    findBest snapshot used c maxD = claimBest snapshot used c maxD := by
  have h := findBest_fold_rel used c maxD snapshot (none, none) none trivial
  unfold findBest claimBest claimCandidates
  set a := snapshot.foldl
      (fun (acc : Option ℤ × Option ℕ) p =>
        if p.1 ∈ used then acc
        else
          let d := distSq c p.2
          let ltMin : Bool :=
            match acc.1 with
            | none => true
            | some m => decide (d < m)
          if ltMin ∧ d < (maxD : ℤ) ^ 2 then (some d, some p.1) else acc)
      (none, none) with ha
  set b := (snapshot.filter
      (fun p => decide (p.1 ∉ used ∧ distSq c p.2 < (maxD : ℤ) ^ 2))).foldl
      (fun (acc : Option (ℕ × (ℤ × ℤ))) p =>
        match acc with
        | none => some p
        | some q => if distSq c p.2 < distSq c q.2 then some p else some q)
      none with hb
  match a, b, h with
  | (none, none), none, _ => rfl
  | (some d, some i), some q, hq => simp [hq.1]

theorem matchStep_eq_specStep (snapshot : List (ℕ × (ℤ × ℤ))) (acc : MatchAcc)
    (c : ℤ × ℤ) : matchStep snapshot acc c = specStep snapshot acc c := by
  unfold matchStep specStep
  rw [findBest_eq_claimBest]

theorem matchFold_eq_specFold (snapshot : List (ℕ × (ℤ × ℤ))) (cs : List (ℤ × ℤ)) :
    ∀ acc : MatchAcc,
      cs.foldl (matchStep snapshot) acc = cs.foldl (specStep snapshot) acc := by
  induction cs with
  | nil => intro acc; rfl
  | cons c cs ih =>
    intro acc
    rw [List.foldl_cons, List.foldl_cons, matchStep_eq_specStep, ih]

theorem matchFold_length (snapshot : List (ℕ × (ℤ × ℤ))) (cs : List (ℤ × ℤ)) :
    ∀ acc : MatchAcc,
      (cs.foldl (matchStep snapshot) acc).matched_ids.length =
        acc.matched_ids.length + cs.length := by
  induction cs with
  | nil => intro acc; rfl
  | cons c cs ih =>
    intro acc
    rw [List.foldl_cons, ih]
    unfold matchStep
    match findBest snapshot acc.used_tracked_ids c acc.state.max_distance with
    | some bid => simp; omega
    | none => simp; omega

/-! ## Tracker: the missing-counter pass acts pointwise on distinct ids -/

theorem incMissing_of_not_mem (ts : List (ℕ × Track)) (pid : ℕ)
    (h : pid ∉ ts.map (fun p => p.1)) : incMissing ts pid = ts := by
  induction ts with
  | nil => rfl
  | cons q qs ih =>
    unfold incMissing
    rw [List.map_cons]
    rw [if_neg (by rintro rfl; exact h (by simp))]
    have : incMissing qs pid = qs := ih (fun hm => h (by simp [hm]))
    unfold incMissing at this
    rw [this]

theorem find?_incMissing (ts : List (ℕ × Track)) (pid : ℕ) :
    (incMissing ts pid).find? (fun p => p.1 == pid) =
      ((ts.find? (fun p => p.1 == pid)).map
        (fun p => (p.1, { p.2 with frames_missing := p.2.frames_missing + 1 }))) := by
  induction ts with
  | nil => rfl
  | cons q qs ih =>
    unfold incMissing
    rw [List.map_cons]
    by_cases hq : q.1 = pid
    · rw [if_pos hq]
      rw [List.find?_cons_of_pos _ (by simp [hq]), List.find?_cons_of_pos _ (by simp [hq])]
      rfl
    · rw [if_neg hq]
      rw [List.find?_cons_of_neg _ (by simp [hq]), List.find?_cons_of_neg _ (by simp [hq])]
      exact ih

theorem incMissing_cons (q : ℕ × Track) (qs : List (ℕ × Track)) (pid : ℕ) :
    incMissing (q :: qs) pid =
      (if q.1 = pid then (q.1, { q.2 with frames_missing := q.2.frames_missing + 1 })
       else q) :: incMissing qs pid := rfl

theorem filter_incMissing (ts : List (ℕ × Track)) (pid : ℕ) :
    (incMissing ts pid).filter (fun q => q.1 != pid) =
      ts.filter (fun q => q.1 != pid) := by
  induction ts with
  | nil => rfl
  | cons q qs ih =>
    rw [incMissing_cons]
    by_cases hq : q.1 = pid
    · rw [if_pos hq]
      rw [List.filter_cons_of_neg (by simp [hq]), List.filter_cons_of_neg (by simp [hq])]
      exact ih
    · rw [if_neg hq]
      rw [List.filter_cons_of_pos (by simp [hq]), List.filter_cons_of_pos (by simp [hq])]
      rw [ih]

theorem semOne_of_not_mem (mem : ℕ) (pid : ℕ) (ts : List (ℕ × Track))
    (h : pid ∉ ts.map (fun p => p.1)) : semOne mem pid ts = ts := by
  induction ts with
  | nil => rfl
  | cons q qs ih =>
    unfold semOne
    rw [List.filterMap_cons]
    rw [if_neg (by rintro rfl; exact h (by simp))]
    have : semOne mem pid qs = qs := ih (fun hm => h (by simp [hm]))
    unfold semOne at this
    rw [this]

theorem filter_ne_of_not_mem (ts : List (ℕ × Track)) (pid : ℕ)
    (h : pid ∉ ts.map (fun p => p.1)) : ts.filter (fun q => q.1 != pid) = ts := by
  induction ts with
  | nil => rfl
  | cons q qs ih =>
    rw [List.filter_cons_of_pos (by simp; rintro rfl; exact h (by simp))]
    rw [ih (fun hm => h (by simp [hm]))]

theorem missStep_eq_semOne (mem : ℕ) (pid : ℕ) :
    ∀ ts : List (ℕ × Track), (ts.map (fun p => p.1)).Nodup →
      missStep mem ts pid = semOne mem pid ts := by
  intro ts
  induction ts with
  | nil => intro _; rfl
  | cons q qs ih =>
    intro hnd
    rw [List.map_cons, List.nodup_cons] at hnd
    obtain ⟨hq1, hq2⟩ := hnd
    by_cases hq : q.1 = pid
    · subst hq
      have hinc : incMissing (q :: qs) q.1 =
          (q.1, { q.2 with frames_missing := q.2.frames_missing + 1 }) :: qs := by
        rw [incMissing_cons, if_pos rfl, incMissing_of_not_mem qs q.1 hq1]
      unfold missStep
      rw [hinc]
      dsimp only
      rw [List.find?_cons_of_pos _ (by simp)]
      dsimp only
      unfold semOne
      rw [List.filterMap_cons, if_pos rfl]
      by_cases hm : q.2.frames_missing + 1 > mem
      · rw [if_pos hm, if_neg (by omega)]
        rw [List.filter_cons_of_neg (by simp)]
        rw [filter_ne_of_not_mem qs q.1 hq1]
        exact (semOne_of_not_mem mem q.1 qs hq1).symm
      · rw [if_neg hm, if_pos (by omega)]
        have htail := semOne_of_not_mem mem q.1 qs hq1
        unfold semOne at htail
        rw [htail]
    · have hinc : incMissing (q :: qs) pid = q :: incMissing qs pid := by
        rw [incMissing_cons, if_neg hq]
      have hrhs : semOne mem pid (q :: qs) = q :: semOne mem pid qs := by
        unfold semOne
        rw [List.filterMap_cons, if_neg hq]
      rw [hrhs, ← ih hq2]
      unfold missStep
      rw [hinc]
      dsimp only
      rw [List.find?_cons_of_neg _ (by simp [hq])]
      rcases hf : (incMissing qs pid).find? (fun p => p.1 == pid) with _ | p
      · rw [hf]
      · rw [hf]
        dsimp only
        by_cases hm : p.2.frames_missing > mem
        · rw [if_pos hm, if_pos hm]
          rw [List.filter_cons_of_pos (by simp [hq])]
        · rw [if_neg hm, if_neg hm]

theorem semOne_keys_sublist (mem : ℕ) (pid : ℕ) (ts : List (ℕ × Track)) :
    ((semOne mem pid ts).map (fun p => p.1)).Sublist (ts.map (fun p => p.1)) := by
  induction ts with
  | nil => exact List.Sublist.refl _
  | cons q qs ih =>
    unfold semOne
    rw [List.filterMap_cons, List.map_cons]
    by_cases hq : q.1 = pid
    · rw [if_pos hq]
      by_cases hm : q.2.frames_missing + 1 ≤ mem
      · rw [if_pos hm]
        dsimp only
        rw [List.map_cons]
        exact List.Sublist.cons₂ _ ih
      · rw [if_neg hm]
        dsimp only
        exact List.Sublist.cons _ ih
    · rw [if_neg hq]
      dsimp only
      rw [List.map_cons]
      exact List.Sublist.cons₂ _ ih

theorem semOne_mem (mem : ℕ) (pid : ℕ) (ts : List (ℕ × Track)) :
    ∀ x ∈ semOne mem pid ts,
      (x.1 = pid ∧ x.2.frames_missing ≤ mem) ∨ (x ∈ ts ∧ x.1 ≠ pid) := by
  induction ts with
  | nil => intro x hx; exact absurd hx (List.not_mem_nil x)
  | cons q qs ih =>
    intro x hx
    unfold semOne at hx
    rw [List.filterMap_cons] at hx
    by_cases hq : q.1 = pid
    · rw [if_pos hq] at hx
      by_cases hm : q.2.frames_missing + 1 ≤ mem
      · rw [if_pos hm] at hx
        rcases List.mem_cons.mp hx with hx | hx
        · subst hx
          exact Or.inl ⟨hq, hm⟩
        · rcases ih x hx with h | ⟨h1, h2⟩
          · exact Or.inl h
          · exact Or.inr ⟨List.mem_cons_of_mem _ h1, h2⟩
      · rw [if_neg hm] at hx
        rcases ih x hx with h | ⟨h1, h2⟩
        · exact Or.inl h
        · exact Or.inr ⟨List.mem_cons_of_mem _ h1, h2⟩
    · rw [if_neg hq] at hx
      rcases List.mem_cons.mp hx with hx | hx
      · subst hx
        exact Or.inr ⟨List.mem_cons_self _ _, hq⟩
      · rcases ih x hx with h | ⟨h1, h2⟩
        · exact Or.inl h
        · exact Or.inr ⟨List.mem_cons_of_mem _ h1, h2⟩

theorem mapFilter_skip_used (mem : ℕ) (used : List ℕ) (pid : ℕ) (ids : List ℕ)
    (hu : pid ∈ used) :
    ∀ ts : List (ℕ × Track),
      mapFilter mem used (pid :: ids) ts = mapFilter mem used ids ts := by
  intro ts
  induction ts with
  | nil => rfl
  | cons q qs ih =>
    unfold mapFilter
    rw [List.map_cons, List.map_cons]
    have hcond : (q.1 ∈ pid :: ids ∧ q.1 ∉ used) ↔ (q.1 ∈ ids ∧ q.1 ∉ used) := by
      constructor
      · rintro ⟨h1, h2⟩
        rcases List.mem_cons.mp h1 with rfl | h1
        · exact absurd hu h2
        · exact ⟨h1, h2⟩
      · rintro ⟨h1, h2⟩
        exact ⟨List.mem_cons_of_mem _ h1, h2⟩
    unfold mapFilter at ih
    by_cases hc : q.1 ∈ ids ∧ q.1 ∉ used
    · rw [if_pos hc, if_pos (hcond.mpr hc)]
      by_cases hk : q.2.frames_missing + 1 ≤ mem
      · rw [List.filter_cons_of_pos (by simp [hk]), List.filter_cons_of_pos (by simp [hk])]
        rw [ih]
      · rw [List.filter_cons_of_neg (by simp; omega), List.filter_cons_of_neg (by simp; omega)]
        exact ih
    · rw [if_neg hc, if_neg (fun h => hc (hcond.mp h))]
      by_cases hk : q.2.frames_missing ≤ mem
      · rw [List.filter_cons_of_pos (by simp [hk]), List.filter_cons_of_pos (by simp [hk])]
        rw [ih]
      · rw [List.filter_cons_of_neg (by simp [hk]), List.filter_cons_of_neg (by simp [hk])]
        exact ih

theorem mapFilter_step (mem : ℕ) (used : List ℕ) (pid : ℕ) (ids : List ℕ)
    (hu : pid ∉ used) (hi : pid ∉ ids) :
    ∀ ts : List (ℕ × Track),
      mapFilter mem used (pid :: ids) ts = mapFilter mem used ids (semOne mem pid ts) := by
  intro ts
  induction ts with
  | nil => rfl
  | cons q qs ih =>
    unfold mapFilter semOne
    rw [List.filterMap_cons, List.map_cons]
    unfold mapFilter semOne at ih
    by_cases hq : q.1 = pid
    · subst hq
      rw [if_pos ⟨List.mem_cons_self _ _, hu⟩, if_pos rfl]
      by_cases hm : q.2.frames_missing + 1 ≤ mem
      · rw [if_pos hm]
        dsimp only
        rw [List.map_cons]
        rw [if_neg (by rintro ⟨h1, -⟩; exact hi h1)]
        rw [List.filter_cons_of_pos (by simp [hm]), List.filter_cons_of_pos (by simp [hm])]
        rw [ih]
      · rw [if_neg hm]
        dsimp only
        rw [List.filter_cons_of_neg (by simp; omega)]
        exact ih
    · rw [if_neg hq]
      dsimp only
      rw [List.map_cons]
      have hcond : (q.1 ∈ pid :: ids ∧ q.1 ∉ used) ↔ (q.1 ∈ ids ∧ q.1 ∉ used) := by
        constructor
        · rintro ⟨h1, h2⟩
          rcases List.mem_cons.mp h1 with h1 | h1
          · exact absurd h1 hq
          · exact ⟨h1, h2⟩
        · rintro ⟨h1, h2⟩
          exact ⟨List.mem_cons_of_mem _ h1, h2⟩
      by_cases hc : q.1 ∈ ids ∧ q.1 ∉ used
      · rw [if_pos (hcond.mpr hc), if_pos hc]
        by_cases hk : q.2.frames_missing + 1 ≤ mem
        · rw [List.filter_cons_of_pos (by simp [hk]), List.filter_cons_of_pos (by simp [hk])]
          rw [ih]
        · rw [List.filter_cons_of_neg (by simp; omega),
              List.filter_cons_of_neg (by simp; omega)]
          exact ih
      · rw [if_neg (fun h => hc (hcond.mp h)), if_neg hc]
        by_cases hk : q.2.frames_missing ≤ mem
        · rw [List.filter_cons_of_pos (by simp [hk]), List.filter_cons_of_pos (by simp [hk])]
          rw [ih]
        · rw [List.filter_cons_of_neg (by simp [hk]), List.filter_cons_of_neg (by simp [hk])]
          exact ih

theorem mapFilter_nil_ids (mem : ℕ) (used : List ℕ) :
    ∀ ts : List (ℕ × Track), (∀ p ∈ ts, p.2.frames_missing ≤ mem) →
      mapFilter mem used [] ts = ts := by
  intro ts
  induction ts with
  | nil => intro _; rfl
  | cons q qs ih =>
    intro h
    unfold mapFilter
    rw [List.map_cons]
    rw [if_neg (by rintro ⟨h1, -⟩; exact absurd h1 (List.not_mem_nil _))]
    rw [List.filter_cons_of_pos (by simp [h q (List.mem_cons_self _ _)])]
    unfold mapFilter at ih
    rw [ih (fun p hp => h p (List.mem_cons_of_mem _ hp))]

theorem missPass_eq_mapFilter (mem : ℕ) (used : List ℕ) :
    ∀ (ids : List ℕ) (ts : List (ℕ × Track)),
      ids.Nodup → (ts.map (fun p => p.1)).Nodup →
      (∀ p ∈ ts, (p.1 ∉ ids ∨ p.1 ∈ used) → p.2.frames_missing ≤ mem) →
      missPass mem used ids ts = mapFilter mem used ids ts := by
  intro ids
  induction ids with
  | nil =>
    intro ts _ _ hsafe
    have h := mapFilter_nil_ids mem used ts
      (fun p hp => hsafe p hp (Or.inl (List.not_mem_nil _)))
    rw [h]
    rfl
  | cons pid ids ih =>
    intro ts hnd hkeys hsafe
    rw [List.nodup_cons] at hnd
    obtain ⟨hpid, hnd⟩ := hnd
    unfold missPass
    rw [List.foldl_cons]
    by_cases hu : pid ∈ used
    · rw [if_pos hu]
      have hstep := ih ts hnd hkeys ?_
      · unfold missPass at hstep
        rw [hstep, mapFilter_skip_used mem used pid ids hu]
      · intro p hp hcase
        rcases hcase with h | h
        · by_cases hpq : p.1 = pid
          · exact hsafe p hp (Or.inr (hpq ▸ hu))
          · refine hsafe p hp (Or.inl ?_)
            rw [List.mem_cons]
            rintro (h1 | h1)
            · exact hpq h1
            · exact h h1
        · exact hsafe p hp (Or.inr h)
    · rw [if_neg hu]
      rw [missStep_eq_semOne mem pid ts hkeys]
      have hkeys2 : ((semOne mem pid ts).map (fun p => p.1)).Nodup :=
        (semOne_keys_sublist mem pid ts).nodup hkeys
      have hsafe2 : ∀ p ∈ semOne mem pid ts,
          (p.1 ∉ ids ∨ p.1 ∈ used) → p.2.frames_missing ≤ mem := by
        intro p hp hcase
        rcases semOne_mem mem pid ts p hp with ⟨-, h2⟩ | ⟨h1, h2⟩
        · exact h2
        · rcases hcase with h | h
          · refine hsafe p h1 (Or.inl ?_)
            rw [List.mem_cons]
            rintro (hh | hh)
            · exact h2 hh
            · exact h hh
          · exact hsafe p h1 (Or.inr h)
      have hstep := ih (semOne mem pid ts) hnd hkeys2 hsafe2
      unfold missPass at hstep
      rw [hstep, ← mapFilter_step mem used pid ids hu hpid]

/-! ## Tracker: invariants of the matching fold -/

theorem setMatched_keys (ts : List (ℕ × Track)) (pid : ℕ) (c : ℤ × ℤ) :
    (setMatched ts pid c).map (fun p => p.1) = ts.map (fun p => p.1) := by
  induction ts with
  | nil => rfl
  | cons q qs ih =>
    unfold setMatched
    rw [List.map_cons, List.map_cons, List.map_cons]
    unfold setMatched at ih
    rw [ih]
    by_cases hq : q.1 = pid
    · rw [if_pos hq]
    · rw [if_neg hq]

theorem setMatched_mem (ts : List (ℕ × Track)) (pid : ℕ) (c : ℤ × ℤ) :
    ∀ x ∈ setMatched ts pid c,
      (x.1 = pid ∧ x.2.frames_missing = 0) ∨ (x ∈ ts ∧ x.1 ≠ pid) := by
  induction ts with
  | nil => intro x hx; exact absurd hx (List.not_mem_nil x)
  | cons q qs ih =>
    intro x hx
    unfold setMatched at hx
    rw [List.map_cons] at hx
    rcases List.mem_cons.mp hx with hx | hx
    · by_cases hq : q.1 = pid
      · rw [if_pos hq] at hx
        subst hx
        exact Or.inl ⟨hq, rfl⟩
      · rw [if_neg hq] at hx
        subst hx
        exact Or.inr ⟨List.mem_cons_self _ _, hq⟩
    · rcases ih x hx with h | ⟨h1, h2⟩
      · exact Or.inl h
      · exact Or.inr ⟨List.mem_cons_of_mem _ h1, h2⟩

theorem findBest_fold_mem (used : List ℕ) (c : ℤ × ℤ) (maxD : ℕ) :
    ∀ (snapshot : List (ℕ × (ℤ × ℤ))) (a : Option ℤ × Option ℕ) (x : ℕ),
      (snapshot.foldl
        (fun (acc : Option ℤ × Option ℕ) p =>
          if p.1 ∈ used then acc
          else
            let d := distSq c p.2
            let ltMin : Bool :=
              match acc.1 with
              | none => true
              | some m => decide (d < m)
            if ltMin ∧ d < (maxD : ℤ) ^ 2 then (some d, some p.1) else acc)
        a).2 = some x →
      a.2 = some x ∨ x ∈ snapshot.map (fun p => p.1) := by
  intro snapshot
  induction snapshot with
  | nil => intro a x h; exact Or.inl h
  | cons p ps ih =>
    intro a x h
    rw [List.foldl_cons] at h
    rw [List.map_cons]
    by_cases hu : p.1 ∈ used
    · rw [if_pos hu] at h
      rcases ih a x h with h | h
      · exact Or.inl h
      · exact Or.inr (List.mem_cons_of_mem _ h)
    · rw [if_neg hu] at h
      by_cases hcond : ((match a.1 with
          | none => true
          | some m => decide (distSq c p.2 < m)) = true) ∧
          distSq c p.2 < (maxD : ℤ) ^ 2
      · rw [if_pos hcond] at h
        rcases ih _ x h with h | h
        · simp at h
          exact Or.inr (List.mem_cons.mpr (Or.inl h.symm))
        · exact Or.inr (List.mem_cons_of_mem _ h)
      · rw [if_neg hcond] at h
        rcases ih a x h with h | h
        · exact Or.inl h
        · exact Or.inr (List.mem_cons_of_mem _ h)

theorem findBest_mem (snapshot : List (ℕ × (ℤ × ℤ))) (used : List ℕ) (c : ℤ × ℤ)
    (maxD : ℕ) (b : ℕ) (h : findBest snapshot used c maxD = some b) :
    b ∈ snapshot.map (fun p => p.1) := by
  unfold findBest at h
  rcases findBest_fold_mem used c maxD snapshot (none, none) b h with h | h
  · exact absurd h (by simp)
  · exact h

theorem register_inv (s : PersonTracker) (c : ℤ × ℤ) (hs : TrackerInv s) :
    TrackerInv (s.register c).2 := by
  obtain ⟨hb, hn⟩ := hs
  unfold PersonTracker.register TrackerInv
  dsimp only
  constructor
  · intro p hp
    rcases List.mem_append.mp hp with hp | hp
    · exact Nat.lt_succ_of_lt (hb p hp)
    · rw [List.mem_singleton] at hp
      subst hp
      exact Nat.lt_succ_self _
  · rw [List.map_append]
    apply List.Nodup.append hn (List.nodup_singleton _)
    intro x hx hx'
    simp only [List.map_cons, List.map_nil, List.mem_singleton] at hx'
    subst hx'
    rcases List.mem_map.mp hx with ⟨p, hp, hpx⟩
    have := hb p hp
    omega

theorem mem_keys_lt (s : PersonTracker) (hs : TrackerInv s) (i : ℕ)
    (h : i ∈ s.tracked_persons.map (fun p => p.1)) : i < s.next_id := by
  rcases List.mem_map.mp h with ⟨p, hp, hpx⟩
  subst hpx
  exact hs.1 p hp

theorem matchStep_matchinv (s0 : PersonTracker) (hs0 : TrackerInv s0) (c : ℤ × ℤ)
    (acc : MatchAcc) (h : MatchInv s0 acc) :
    MatchInv s0
      (matchStep (s0.tracked_persons.map (fun p => (p.1, p.2.centroid))) acc c) := by
  unfold matchStep
  rcases hf : findBest (s0.tracked_persons.map (fun p => (p.1, p.2.centroid)))
      acc.used_tracked_ids c acc.state.max_distance with _ | bid
  · -- no match: register a new track
    rw [hf]
    dsimp only
    have hreg : (acc.state.register c).1 = acc.state.next_id := rfl
    have hregn : (acc.state.register c).2.next_id = acc.state.next_id + 1 := rfl
    have hregt : (acc.state.register c).2.tracked_persons =
        acc.state.tracked_persons ++
          [(acc.state.next_id,
            { centroid := c, frames_missing := 0, logged := false })] := rfl
    constructor
    · exact register_inv acc.state c h.inv
    · rw [hregn]; exact Nat.le_succ_of_le h.mono
    · exact h.maxd
    · exact h.memf
    · intro i hi
      rw [hregn]
      rcases List.mem_append.mp hi with hi | hi
      · exact Nat.lt_succ_of_lt (h.ids_lt i hi)
      · rw [List.mem_singleton] at hi
        rw [hi, hreg]
        exact Nat.lt_succ_self _
    · intro i hi
      rcases List.mem_append.mp hi with hi | hi
      · exact h.ids_src i hi
      · rw [List.mem_singleton] at hi
        rw [hi, hreg]
        exact Or.inr h.mono
    · rw [List.filter_append]
      rw [List.pairwise_append]
      refine ⟨h.new_sorted, ?_, ?_⟩
      · rw [hreg, List.filter_cons_of_pos (by simp [h.mono]), List.filter_nil]
        exact List.pairwise_singleton _ _
      · intro x hx y hy
        rw [hreg, List.filter_cons_of_pos (by simp [h.mono]), List.filter_nil] at hy
        rw [List.mem_singleton] at hy
        subst hy
        exact h.ids_lt x (List.mem_of_mem_filter hx)
    · exact h.used_old
    · intro p hp hpu
      rw [hregt] at hp
      rcases List.mem_append.mp hp with hp | hp
      · exact h.used_zero p hp hpu
      · rw [List.mem_singleton] at hp
        subst hp
        rfl
    · intro p hp hpn
      rw [hregt] at hp
      rcases List.mem_append.mp hp with hp | hp
      · exact h.new_zero p hp hpn
      · rw [List.mem_singleton] at hp
        subst hp
        rfl
  · -- matched an existing track
    rw [hf]
    dsimp only
    have hbid : bid ∈ s0.tracked_persons.map (fun p => p.1) := by
      have := findBest_mem _ _ _ _ _ hf
      rw [List.map_map] at this
      exact this
    have hbid_lt : bid < s0.next_id := mem_keys_lt s0 hs0 bid hbid
    have hmono := h.mono
    constructor
    · obtain ⟨hb, hn⟩ := h.inv
      constructor
      · intro p hp
        dsimp only at hp ⊢
        rcases setMatched_mem _ _ _ p hp with ⟨h1, -⟩ | ⟨h1, -⟩
        · rw [h1]; omega
        · exact hb p h1
      · rw [setMatched_keys]
        exact hn
    · exact h.mono
    · exact h.maxd
    · exact h.memf
    · intro i hi
      dsimp only at hi ⊢
      rcases List.mem_append.mp hi with hi | hi
      · exact h.ids_lt i hi
      · rw [List.mem_singleton] at hi
        subst hi
        omega
    · intro i hi
      rcases List.mem_append.mp hi with hi | hi
      · exact h.ids_src i hi
      · rw [List.mem_singleton] at hi
        subst hi
        exact Or.inl hbid
    · rw [List.filter_append]
      rw [List.filter_cons_of_neg (by simp; omega), List.filter_nil, List.append_nil]
      exact h.new_sorted
    · intro i hi
      rcases List.mem_append.mp hi with hi | hi
      · exact h.used_old i hi
      · rw [List.mem_singleton] at hi
        subst hi
        exact hbid
    · intro p hp hpu
      rcases setMatched_mem _ _ _ p hp with ⟨-, h2⟩ | ⟨h1, h2⟩
      · exact h2
      · rcases List.mem_append.mp hpu with hpu | hpu
        · exact h.used_zero p h1 hpu
        · rw [List.mem_singleton] at hpu
          exact absurd hpu h2
    · intro p hp hpn
      rcases setMatched_mem _ _ _ p hp with ⟨-, h2⟩ | ⟨h1, -⟩
      · exact h2
      · exact h.new_zero p h1 hpn

theorem matchInv_init (s0 : PersonTracker) (hs0 : TrackerInv s0) :
    MatchInv s0 ⟨[], [], s0⟩ := by
  constructor
  · exact hs0
  · exact le_refl _
  · rfl
  · rfl
  · intro i hi; exact absurd hi (List.not_mem_nil i)
  · intro i hi; exact absurd hi (List.not_mem_nil i)
  · exact List.Pairwise.nil
  · intro i hi; exact absurd hi (List.not_mem_nil i)
  · intro p _ hpu; exact absurd hpu (List.not_mem_nil _)
  · intro p hp hpn
    exact absurd (List.mem_map_of_mem (fun q => q.1) hp) hpn

theorem matchFold_matchinv (s0 : PersonTracker) (hs0 : TrackerInv s0)
    (cs : List (ℤ × ℤ)) :
    ∀ acc : MatchAcc, MatchInv s0 acc →
      MatchInv s0
        (cs.foldl (matchStep (s0.tracked_persons.map (fun p => (p.1, p.2.centroid))))
          acc) := by
  induction cs with
  | nil => intro acc h; exact h
  | cons c cs ih =>
    intro acc h
    rw [List.foldl_cons]
    exact ih _ (matchStep_matchinv s0 hs0 c acc h)

/-! ## Tracker: `update` equals the spec's greedy algorithm -/

theorem branch2_eq_specFold (cs : List (ℤ × ℤ)) :
    ∀ (ids0 used0 : List ℕ) (st : PersonTracker),
      cs.foldl
          (fun (acc : List ℕ × PersonTracker) c =>
            let r := acc.2.register c
            (acc.1 ++ [r.1], r.2))
          (ids0, st) =
        ((cs.foldl (specStep []) (⟨ids0, used0, st⟩ : MatchAcc)).matched_ids,
         (cs.foldl (specStep []) (⟨ids0, used0, st⟩ : MatchAcc)).state) := by
  induction cs with
  | nil => intro ids0 used0 st; rfl
  | cons c cs ih =>
    intro ids0 used0 st
    rw [List.foldl_cons, List.foldl_cons]
    have hspec : specStep [] (⟨ids0, used0, st⟩ : MatchAcc) c =
        (⟨ids0 ++ [(st.register c).1], used0, (st.register c).2⟩ : MatchAcc) := rfl
    rw [hspec]
    dsimp only
    exact ih (ids0 ++ [(st.register c).1]) used0 (st.register c).2

theorem mapFilter_keys_sublist (mem : ℕ) (used ids : List ℕ) (ts : List (ℕ × Track)) :
    ((mapFilter mem used ids ts).map (fun p => p.1)).Sublist
      (ts.map (fun p => p.1)) := by
  unfold mapFilter
  have h1 : (((ts.map (fun p =>
      if p.1 ∈ ids ∧ p.1 ∉ used then
        (p.1, { p.2 with frames_missing := p.2.frames_missing + 1 })
      else p)).filter (fun p => decide (p.2.frames_missing ≤ mem))).map
        (fun p => p.1)).Sublist
      ((ts.map (fun p =>
        if p.1 ∈ ids ∧ p.1 ∉ used then
          (p.1, { p.2 with frames_missing := p.2.frames_missing + 1 })
        else p)).map (fun p => p.1)) :=
    List.Sublist.map (fun p : ℕ × Track => p.1) (List.filter_sublist _)
  have h2 : (ts.map (fun p =>
      if p.1 ∈ ids ∧ p.1 ∉ used then
        (p.1, { p.2 with frames_missing := p.2.frames_missing + 1 })
      else p)).map (fun p => p.1) = ts.map (fun p => p.1) := by
    rw [List.map_map]
    apply List.map_congr_left
    intro p _
    by_cases hc : p.1 ∈ ids ∧ p.1 ∉ used
    · simp [hc]
    · simp [hc]
  rw [h2] at h1
  exact h1

theorem update_eq_specUpdate (s : PersonTracker) (dets : List (ℤ × ℤ × ℤ × ℤ))
    (hs : TrackerInv s) : s.update dets = specUpdate s dets := by
  unfold PersonTracker.update specUpdate
  dsimp only
  by_cases hempty :
      (dets.map (fun b => (b.1 + Int.fdiv b.2.2.1 2, b.2.1 + Int.fdiv b.2.2.2 2))).isEmpty
  · rw [if_pos hempty]
    have hcs0 : dets.map
        (fun b => (b.1 + Int.fdiv b.2.2.1 2, b.2.1 + Int.fdiv b.2.2.2 2)) = [] :=
      List.isEmpty_iff.mp hempty
    rw [hcs0, List.foldl_nil]
    dsimp only
    rw [missPass_eq_mapFilter s.memory_frames [] (s.tracked_persons.map (fun p => p.1))
      s.tracked_persons hs.2 hs.2 (by
        intro p hp hc
        rcases hc with hc | hc
        · exact absurd (List.mem_map_of_mem (fun q => q.1) hp) hc
        · exact absurd hc (List.not_mem_nil _))]
  · rw [if_neg hempty]
    by_cases hts : s.tracked_persons.isEmpty
    · rw [if_pos hts]
      have hts0 : s.tracked_persons = [] := List.isEmpty_iff.mp hts
      have hmi := matchFold_matchinv s hs
        (dets.map (fun b => (b.1 + Int.fdiv b.2.2.1 2, b.2.1 + Int.fdiv b.2.2.2 2)))
        ⟨[], [], s⟩ (matchInv_init s hs)
      rw [matchFold_eq_specFold] at hmi
      rw [hts0] at hmi ⊢
      try dsimp only [List.map_nil] at hmi
      try dsimp only [List.map_nil]
      rw [branch2_eq_specFold
        (dets.map (fun b => (b.1 + Int.fdiv b.2.2.1 2, b.2.1 + Int.fdiv b.2.2.2 2)))
        [] [] s]
      have hmf := mapFilter_nil_ids s.memory_frames
        ((dets.map (fun b => (b.1 + Int.fdiv b.2.2.1 2, b.2.1 + Int.fdiv b.2.2.2 2))).foldl
          (specStep []) (⟨[], [], s⟩ : MatchAcc)).used_tracked_ids
        ((dets.map (fun b => (b.1 + Int.fdiv b.2.2.1 2, b.2.1 + Int.fdiv b.2.2.2 2))).foldl
          (specStep []) (⟨[], [], s⟩ : MatchAcc)).state.tracked_persons
        (fun p hp => by
          have := hmi.new_zero p hp (by rw [hts0]; simp)
          omega)
      rw [hmf]
    · rw [if_neg hts]
      rw [matchFold_eq_specFold]
      have hmi := matchFold_matchinv s hs
        (dets.map (fun b => (b.1 + Int.fdiv b.2.2.1 2, b.2.1 + Int.fdiv b.2.2.2 2)))
        ⟨[], [], s⟩ (matchInv_init s hs)
      rw [matchFold_eq_specFold] at hmi
      rw [missPass_eq_mapFilter s.memory_frames _ _ _ hs.2 hmi.inv.2 (by
        intro p hp hc
        rcases hc with hc | hc
        · have := hmi.new_zero p hp hc
          omega
        · have := hmi.used_zero p hp hc
          omega)]

theorem update_length (s : PersonTracker) (dets : List (ℤ × ℤ × ℤ × ℤ)) :
    (s.update dets).1.length = dets.length := by
  unfold PersonTracker.update
  dsimp only
  by_cases hempty :
      (dets.map (fun b => (b.1 + Int.fdiv b.2.2.1 2, b.2.1 + Int.fdiv b.2.2.2 2))).isEmpty
  · rw [if_pos hempty]
    have hcs0 := List.isEmpty_iff.mp hempty
    rw [List.map_eq_nil_iff] at hcs0
    subst hcs0
    rfl
  · rw [if_neg hempty]
    by_cases hts : s.tracked_persons.isEmpty
    · rw [if_pos hts]
      rw [branch2_eq_specFold
        (dets.map (fun b => (b.1 + Int.fdiv b.2.2.1 2, b.2.1 + Int.fdiv b.2.2.2 2)))
        [] [] s]
      rw [← matchFold_eq_specFold, matchFold_length]
      simp
    · rw [if_neg hts]
      dsimp only
      rw [matchFold_length]
      simp

theorem update_fresh (s : PersonTracker) (dets : List (ℤ × ℤ × ℤ × ℤ))
    (hs : TrackerInv s) :
    TrackerInv (s.update dets).2 ∧ s.next_id ≤ (s.update dets).2.next_id ∧
    (∀ i ∈ (s.update dets).1, i < (s.update dets).2.next_id) ∧
    ((s.update dets).1.filter (fun i => decide (s.next_id ≤ i))).Pairwise (· < ·) := by
  rw [update_eq_specUpdate s dets hs]
  have hmi := matchFold_matchinv s hs
    (dets.map (fun b => (b.1 + Int.fdiv b.2.2.1 2, b.2.1 + Int.fdiv b.2.2.2 2)))
    ⟨[], [], s⟩ (matchInv_init s hs)
  rw [matchFold_eq_specFold] at hmi
  unfold specUpdate
  dsimp only
  refine ⟨⟨?_, ?_⟩, hmi.mono, hmi.ids_lt, hmi.new_sorted⟩
  · intro p hp
    have hkey : p.1 ∈
        ((dets.map (fun b => (b.1 + Int.fdiv b.2.2.1 2, b.2.1 + Int.fdiv b.2.2.2 2))).foldl
          (specStep (s.tracked_persons.map (fun q => (q.1, q.2.centroid))))
          (⟨[], [], s⟩ : MatchAcc)).state.tracked_persons.map (fun q => q.1) :=
      (mapFilter_keys_sublist _ _ _ _).subset (List.mem_map_of_mem (fun q => q.1) hp)
    rcases List.mem_map.mp hkey with ⟨q, hq, hqp⟩
    rw [← hqp]
    exact hmi.inv.1 q hq
  · exact (mapFilter_keys_sublist _ _ _ _).nodup hmi.inv.2

theorem runRegs_fresh (frames : List (List (ℤ × ℤ × ℤ × ℤ))) :
    ∀ s : PersonTracker, TrackerInv s →
      (runRegs s frames).Pairwise (· < ·) ∧ ∀ i ∈ runRegs s frames, s.next_id ≤ i := by
  induction frames with
  | nil =>
    intro s _
    exact ⟨List.Pairwise.nil, fun i hi => absurd hi (List.not_mem_nil i)⟩
  | cons f fs ih =>
    intro s hs
    unfold runRegs
    dsimp only
    obtain ⟨hinv, hmono, hlt, hpair⟩ := update_fresh s f hs
    obtain ⟨ihp, ihge⟩ := ih (s.update f).2 hinv
    constructor
    · rw [List.pairwise_append]
      refine ⟨hpair, ihp, ?_⟩
      intro x hx y hy
      have hx1 : x < (s.update f).2.next_id := hlt x (List.mem_of_mem_filter hx)
      have hy1 : (s.update f).2.next_id ≤ y := ihge y hy
      omega
    · intro i hi
      rcases List.mem_append.mp hi with hi | hi
      · have hq := (List.mem_filter.mp hi).2
        exact of_decide_eq_true hq
      · have h1 := ihge i hi
        omega

/-- C2 (amended): `reset()` clears the tracks and restarts identity
numbering from 1, so identities are reused across session resets; but
within any sequence of `update` calls with no intervening `reset`, the
tracker invariant (live ids pairwise distinct and below `next_id`) is
preserved, `next_id` never decreases, and the identities assigned to
newly registered tracks are pairwise strictly increasing and never
collide with any earlier identity (they are all at least the starting
`next_id`, which bounds every id ever assigned before). -/
theorem C2_identities_fresh_within_session :
    (∀ s : PersonTracker, (PersonTracker.reset s).next_id = 1 ∧
        (PersonTracker.reset s).tracked_persons = []) ∧
    (∀ md mf : ℕ, TrackerInv (PersonTracker.init md mf)) ∧
    (∀ (s : PersonTracker) (dets : List (ℤ × ℤ × ℤ × ℤ)), TrackerInv s →
        TrackerInv (s.update dets).2 ∧ s.next_id ≤ (s.update dets).2.next_id) ∧
    (∀ (s : PersonTracker) (frames : List (List (ℤ × ℤ × ℤ × ℤ))), TrackerInv s →
        (runRegs s frames).Pairwise (· < ·) ∧ ∀ i ∈ runRegs s frames, s.next_id ≤ i) := by
  refine ⟨fun s => ⟨rfl, rfl⟩, ?_, ?_, fun s frames hs => runRegs_fresh frames s hs⟩
  · intro md mf
    exact ⟨fun p hp => absurd hp (List.not_mem_nil p), List.nodup_nil⟩
  · intro s dets hs
    obtain ⟨h1, h2, -, -⟩ := update_fresh s dets hs
    exact ⟨h1, h2⟩

/-- Witness for `C2_identities_fresh_within_session` at concrete
tracker states and frame sequences. -/
theorem C2_identities_fresh_within_session_witness :
    (PersonTracker.reset (PersonTracker.init 50 30)).next_id = 1 ∧
    TrackerInv (PersonTracker.init 50 30) ∧
    TrackerInv ((PersonTracker.init 50 30).update [(0, 0, 10, 10)]).2 ∧
    (runRegs (PersonTracker.init 50 30)
      [[(0, 0, 10, 10)], [(0, 0, 10, 10), (500, 500, 10, 10)]]).Pairwise (· < ·) :=
  ⟨(C2_identities_fresh_within_session.1 (PersonTracker.init 50 30)).1,
   C2_identities_fresh_within_session.2.1 50 30,
   (C2_identities_fresh_within_session.2.2.1 (PersonTracker.init 50 30) [(0, 0, 10, 10)]
     (by decide)).1,
   (C2_identities_fresh_within_session.2.2.2 (PersonTracker.init 50 30)
     [[(0, 0, 10, 10)], [(0, 0, 10, 10), (500, 500, 10, 10)]] (by decide)).1⟩

/-- C3: for every tracker state satisfying the tracker invariant (as
all reachable states do), `update` returns exactly one identity per
input box in input order and coincides with the spec's uniform greedy
algorithm `specUpdate`: each input centroid, in order, is matched to
the nearest not-yet-used pre-existing track strictly within the
distance threshold (its centroid updated and missing counter reset) or
else registers a new track; afterwards every unmatched pre-existing
track's missing counter is incremented and every track whose counter
exceeds the memory window is removed; an empty input returns the empty
sequence (and, by the same equation, performs exactly the
increment-and-expire pass and registers nothing). -/
theorem C3_update_greedy :
    (∀ (s : PersonTracker) (dets : List (ℤ × ℤ × ℤ × ℤ)), TrackerInv s →
        s.update dets = specUpdate s dets) ∧
    (∀ (s : PersonTracker) (dets : List (ℤ × ℤ × ℤ × ℤ)),
        (s.update dets).1.length = dets.length) ∧
    (∀ s : PersonTracker, (s.update []).1 = []) :=
  ⟨update_eq_specUpdate, update_length, fun _ => rfl⟩

/-- Witness for `C3_update_greedy` at a concrete state and input. -/
theorem C3_update_greedy_witness :
    (PersonTracker.init 50 30).update [(0, 0, 10, 10), (7, 3, 10, 10), (500, 500, 8, 8)] =
      specUpdate (PersonTracker.init 50 30)
        [(0, 0, 10, 10), (7, 3, 10, 10), (500, 500, 8, 8)] ∧
    ((PersonTracker.init 50 30).update
      [(0, 0, 10, 10), (7, 3, 10, 10), (500, 500, 8, 8)]).1.length = 3 :=
  ⟨C3_update_greedy.1 (PersonTracker.init 50 30)
      [(0, 0, 10, 10), (7, 3, 10, 10), (500, 500, 8, 8)] (by decide),
   C3_update_greedy.2.1 (PersonTracker.init 50 30)
      [(0, 0, 10, 10), (7, 3, 10, 10), (500, 500, 8, 8)]⟩
